import Mathlib

set_option maxRecDepth 8192

/-!
Shallow embedding of the PitchAI backend evaluation pipeline.

Numbers that the Python source handles as `float` (scores, thresholds) are
modelled as rationals (`ℚ`): every constant the program compares against
(60, 80, the rubric maxima, the 0.6 fallback ratio) is exactly representable,
so the branch structure is unchanged by this idealisation.
-/

namespace PitchAI

/-- Lifecycle status of a project (`app/models/project.py`, class
`ProjectStatus`).  The Python class is a `str` enum; `value` below gives the
string each member carries. -/
inductive ProjectStatus where
  | pending_review
  | processing
  | completed
  | failed
  deriving DecidableEq, Repr

/-- The string value of each `ProjectStatus` member (the Python enum values,
also the raw strings written into the `projects` table). -/
def ProjectStatus.value : ProjectStatus → String
  | .pending_review => "pending_review"
  | .processing => "processing"
  | .completed => "completed"
  | .failed => "failed"

/-- Review verdict (`app/models/project.py`, class `ReviewResult`). -/
inductive ReviewResult where
  | pass
  | fail
  | conditional
  deriving DecidableEq, Repr

/-- `calculate_status_from_score` (`app/models/project.py`, lines 109-118):
`None ↦ PROCESSING`, `≥ 80 ↦ COMPLETED`, `≥ 60 ↦ PENDING_REVIEW`,
otherwise `FAILED`. -/
def calculate_status_from_score : Option ℚ → ProjectStatus
  | none => .processing
  | some total_score =>
      if total_score ≥ 80 then .completed
      else if total_score ≥ 60 then .pending_review
      else .failed

/-- `calculate_review_result_from_score` (`app/models/project.py`,
lines 121-130): `None ↦ None`, `≥ 80 ↦ PASS`, `≥ 60 ↦ CONDITIONAL`,
otherwise `FAIL`. -/
def calculate_review_result_from_score : Option ℚ → Option ReviewResult
  | none => none
  | some total_score =>
      if total_score ≥ 80 then some .pass
      else if total_score ≥ 60 then some .conditional
      else some .fail

/-- `DeepSeekClient._generate_summary`
(`app/services/evaluation/deepseek_client.py`, lines 322-329); the leading
underscore of the Python name is dropped. -/
def generate_summary (total_score : ℚ) : String :=
  if total_score ≥ 80 then "优秀项目，可考虑给予企业工位"
  else if total_score ≥ 60 then "符合基本入孵条件，可注册在工研院"
  else "暂不符合入孵条件，建议完善后重新提交"

/-! ### String primitives

Python strings are modelled as `String`/`List Char`; the stdlib operations the
source uses (`str.strip`, `str.replace`, `str.startswith`) are re-implemented
over `List Char` so that every definition evaluates inside the kernel. -/

/-- The characters Python's `str.strip()` removes (the ASCII whitespace of
`str.isspace`; the rare non-ASCII whitespace code points are not modelled). -/
def pyIsSpace (c : Char) : Bool :=
  c = ' ' ∨ c = '\t' ∨ c = '\n' ∨ c = '\r' ∨ c = '\x0b' ∨ c = '\x0c'

/-- Python `str.strip()` over `List Char`. -/
def pyStrip (cs : List Char) : List Char :=
  ((cs.dropWhile pyIsSpace).reverse.dropWhile pyIsSpace).reverse

/-- Fuel-driven worker for `replaceAll`; the fuel starts at the length of the
string, and every step consumes at least one character. -/
def replaceAllGo (pat rep : List Char) : Nat → List Char → List Char
  | _, [] => []
  | 0, s => s
  | fuel + 1, c :: cs =>
      if pat ≠ [] ∧ pat.isPrefixOf (c :: cs) then
        rep ++ replaceAllGo pat rep fuel (List.drop pat.length (c :: cs))
      else c :: replaceAllGo pat rep fuel cs

/-- Python `pat in s` for strings: `pat` occurs as a contiguous substring. -/
def containsSub (pat : List Char) : List Char → Bool
  | [] => pat.isEmpty
  | c :: cs => pat.isPrefixOf (c :: cs) || containsSub pat cs

/-- Python `str.replace(pat, rep)`: every non-overlapping occurrence, left to
right.  (For `pat = []` Python splices `rep` between characters; the source
only ever replaces non-empty patterns, so that case is the identity here.) -/
def replaceAll (pat rep s : List Char) : List Char :=
  replaceAllGo pat rep s.length s

/-! ### The JSON value model and a model of `json.loads`

`json.loads` is Python-stdlib code, not part of this repository; it is
modelled by a small recursive-descent parser over `List Char`.  Numbers are
parsed as sign, digits and an optional fraction (scientific notation and
`\uXXXX` string escapes are not modelled: a reply using them counts as a
parse failure). -/

/-- A parsed JSON value (the shape of what `json.loads` returns). -/
inductive Json where
  | null
  | bool (b : Bool)
  | num (q : ℚ)
  | str (s : String)
  | arr (xs : List Json)
  | obj (fields : List (String × Json))
  deriving Repr

/-- Python `result[key]` on a parsed JSON value: `some` value for an object
with the key (first occurrence), `none` when the key is missing or the value
is not an object — the cases where the subscript raises `KeyError` or
`TypeError`. -/
def Json.getKey : Json → String → Option Json
  | .obj fields, k => fields.lookup k
  | _, _ => none

/-- Whether `j` is an object carrying the key `k`. -/
def Json.hasKey (j : Json) (k : String) : Bool :=
  (j.getKey k).isSome

/-- JSON structural whitespace. -/
def jsonWs (c : Char) : Bool :=
  c = ' ' ∨ c = '\t' ∨ c = '\n' ∨ c = '\r'

/-- One decimal digit. -/
def digitVal (c : Char) : Option Nat :=
  if '0' ≤ c ∧ c ≤ '9' then some (c.toNat - '0'.toNat) else none

/-- Digits to a natural number, most significant first. -/
def digitsToNat (ds : List Char) : Nat :=
  ds.foldl (fun acc c => acc * 10 + (c.toNat - '0'.toNat)) 0

/-- Is `c` a decimal digit. -/
def isDigitChar (c : Char) : Bool :=
  '0' ≤ c ∧ c ≤ '9'

/-- Parse a JSON string body after the opening quote; supports the one-letter
escapes.  Returns the string and the rest after the closing quote. -/
def parseStringBody : Nat → List Char → Option (List Char × List Char)
  | 0, _ => none
  | _, [] => none
  | fuel + 1, c :: cs =>
      if c = '"' then some ([], cs)
      else if c = '\\' then
        match cs with
        | [] => none
        | e :: cs' =>
            let esc : Option Char :=
              if e = '"' then some '"'
              else if e = '\\' then some '\\'
              else if e = '/' then some '/'
              else if e = 'n' then some '\n'
              else if e = 't' then some '\t'
              else if e = 'r' then some '\r'
              else if e = 'b' then some '\x08'
              else if e = 'f' then some '\x0c'
              else none
            match esc with
            | none => none
            | some ch =>
                match parseStringBody fuel cs' with
                | none => none
                | some (body, rest) => some (ch :: body, rest)
      else
        match parseStringBody fuel cs with
        | none => none
        | some (body, rest) => some (c :: body, rest)

/-- Parse a JSON number: optional minus sign, digits, optional fraction. -/
def parseNumber (cs : List Char) : Option (ℚ × List Char) :=
  let (neg, cs₁) : Bool × List Char :=
    match cs with
    | '-' :: rest => (true, rest)
    | _ => (false, cs)
  let intDigits := cs₁.takeWhile isDigitChar
  let cs₂ := cs₁.dropWhile isDigitChar
  if intDigits = [] then none
  else
    let (fracDigits, rest) : List Char × List Char :=
      match cs₂ with
      | '.' :: cs₃ => (cs₃.takeWhile isDigitChar, cs₃.dropWhile isDigitChar)
      | _ => ([], cs₂)
    if cs₂ ≠ [] ∧ cs₂.head? = some '.' ∧ fracDigits = [] then none
    else
      let mag : ℚ :=
        mkRat (digitsToNat intDigits * 10 ^ fracDigits.length + digitsToNat fracDigits)
          (10 ^ fracDigits.length)
      some (if neg then -mag else mag, rest)

mutual

/-- Parse one JSON value (fuel-driven recursive descent). -/
def parseValue : Nat → List Char → Option (Json × List Char)
  | 0, _ => none
  | fuel + 1, cs =>
      match cs.dropWhile jsonWs with
      | [] => none
      | c :: cs' =>
          if c = '{' then parseObjFields fuel (cs'.dropWhile jsonWs) true
          else if c = '[' then parseArrElems fuel (cs'.dropWhile jsonWs) true
          else if c = '"' then
            match parseStringBody (fuel + 1) cs' with
            | none => none
            | some (body, rest) => some (.str (String.mk body), rest)
          else if ['t', 'r', 'u', 'e'].isPrefixOf (c :: cs') then
            some (.bool true, (c :: cs').drop 4)
          else if ['f', 'a', 'l', 's', 'e'].isPrefixOf (c :: cs') then
            some (.bool false, (c :: cs').drop 5)
          else if ['n', 'u', 'l', 'l'].isPrefixOf (c :: cs') then
            some (.null, (c :: cs').drop 4)
          else
            match parseNumber (c :: cs') with
            | none => none
            | some (q, rest) => some (.num q, rest)

/-- Parse the members of an object after `{` (whitespace already skipped);
`first` is true before the first member. -/
def parseObjFields : Nat → List Char → Bool → Option (Json × List Char)
  | 0, _, _ => none
  | fuel + 1, cs, first =>
      match cs with
      | '}' :: rest =>
          if first then some (.obj [], rest) else none
      | '"' :: cs' =>
          match parseStringBody (fuel + 1) cs' with
          | none => none
          | some (key, afterKey) =>
              match afterKey.dropWhile jsonWs with
              | ':' :: afterColon =>
                  match parseValue fuel afterColon with
                  | none => none
                  | some (v, afterVal) =>
                      match afterVal.dropWhile jsonWs with
                      | ',' :: afterComma =>
                          (match parseObjFields fuel (afterComma.dropWhile jsonWs) false with
                            | some (.obj fields, rest) =>
                                some (.obj ((String.mk key, v) :: fields), rest)
                            | _ => none)
                      | '}' :: rest => some (.obj [(String.mk key, v)], rest)
                      | _ => none
              | _ => none
      | _ => none

/-- Parse the elements of an array after `[` (whitespace already skipped). -/
def parseArrElems : Nat → List Char → Bool → Option (Json × List Char)
  | 0, _, _ => none
  | fuel + 1, cs, first =>
      match cs with
      | ']' :: rest =>
          if first then some (.arr [], rest) else none
      | _ =>
          match parseValue fuel cs with
          | none => none
          | some (v, afterVal) =>
              match afterVal.dropWhile jsonWs with
              | ',' :: afterComma =>
                  (match parseArrElems fuel (afterComma.dropWhile jsonWs) false with
                    | some (.arr xs, rest) => some (.arr (v :: xs), rest)
                    | _ => none)
              | ']' :: rest => some (.arr [v], rest)
              | _ => none

end

/-- Model of `json.loads`: parse one value, then require only whitespace
after it. -/
def json_loads (cs : List Char) : Option Json :=
  match parseValue (cs.length + 1) cs with
  | none => none
  | some (v, rest) => if rest.dropWhile jsonWs = [] then some v else none

/-! ### The Dimension Evaluator (`app/services/evaluation/deepseek_client.py`) -/

/-- One rubric entry: the dimension's maximum and its ordered sub-dimensions
(name, maximum) — the shape of the `config` dicts in
`DeepSeekClient.evaluate_business_plan`. -/
structure DimConfig where
  max_score : ℚ
  sub_dimensions : List (String × ℚ)

/-- The outcome of the one `chat.completions.create` call: the call raised
(network/auth/quota/any exception), or it returned reply text. -/
inductive ServiceResponse where
  | raised
  | reply (content : String)

/-- The reply post-processing of `_evaluate_dimension` (lines 125-132):
`.strip()`, removal of markdown code fences when the reply starts with
three backticks followed by `json`, then `json.loads`. -/
def parse_service_reply (content : String) : Option Json :=
  let rc := pyStrip content.toList
  let rc :=
    if ("```json".toList).isPrefixOf rc then
      pyStrip (replaceAll ("```".toList) [] (replaceAll ("```json".toList) [] rc))
    else rc
  json_loads rc

/-- `DeepSeekClient._get_fallback_dimension_evaluation` (lines 280-301); the
Python float literal `0.6` is the exact rational `6/10`. -/
def get_fallback_dimension_evaluation (dimension : String) (config : DimConfig) : Json :=
  .obj [
    ("score", .num (config.max_score * (6 / 10))),
    ("max_score", .num config.max_score),
    ("comments", .str (dimension ++ "评估暂时无法完成，请人工评审")),
    ("sub_dimensions", .arr (config.sub_dimensions.map fun sub =>
      .obj [
        ("sub_dimension", .str sub.1),
        ("score", .num (sub.2 * (6 / 10))),
        ("max_score", .num sub.2),
        ("comments", .str "待人工评审")])),
    ("missing_info", .arr [
      .obj [
        ("type", .str "AI评估失败"),
        ("description", .str (dimension ++ "维度需要人工评审"))]])]

/-- `DeepSeekClient._evaluate_dimension` (lines 96-142).  The API call and
`json.loads` outcomes drive the branches: an exception from the call, a
JSON decode error, or a `KeyError`/`TypeError` from the success-path
`result['score']` access (caught by the outer handler) all yield the
fallback; otherwise the parsed reply is returned verbatim. -/
def evaluate_dimension (dimension : String) (config : DimConfig)
    (response : ServiceResponse) : Json :=
  match response with
  | .raised => get_fallback_dimension_evaluation dimension config
  | .reply content =>
      match parse_service_reply content with
      | none => get_fallback_dimension_evaluation dimension config
      | some result =>
          match result.getKey "score" with
          | none => get_fallback_dimension_evaluation dimension config
          | some _ => result

/-- The reply shape the spec expects, stated from the spec's words (§4.2: "a
structured reply matching the DimensionScore shape plus an optional
missing-information list"): an object with numeric `score` and `max_score`, a
string `comments`, and a `sub_dimensions` array of sub-score objects.  This
definition follows the SPEC, for comparison against what the code actually
checks; the code's own acceptance test is in `evaluate_dimension`. -/
def spec_expected_reply_shape (j : Json) : Bool :=
  (match j.getKey "score" with | some (.num _) => true | _ => false)
  && (match j.getKey "max_score" with | some (.num _) => true | _ => false)
  && (match j.getKey "comments" with | some (.str _) => true | _ => false)
  && (match j.getKey "sub_dimensions" with
      | some (.arr subs) =>
          subs.all fun s =>
            (match s.getKey "sub_dimension" with | some (.str _) => true | _ => false)
            && (match s.getKey "score" with | some (.num _) => true | _ => false)
            && (match s.getKey "max_score" with | some (.num _) => true | _ => false)
      | _ => false)

/-! ### The Evaluation Aggregator (`DeepSeekClient.evaluate_business_plan`) -/

/-- The rubric as hard-coded inside `evaluate_business_plan` (lines 20-60);
it duplicates `STANDARD_DIMENSIONS` of `app/models/score.py` verbatim. -/
def deepseek_dimensions : List (String × DimConfig) := [
  ("团队能力", ⟨30, [("核心团队背景", 10), ("团队完整性", 10), ("团队执行力", 10)]⟩),
  ("产品&技术", ⟨20, [("技术创新性", 8), ("产品成熟度", 6), ("研发能力", 6)]⟩),
  ("市场前景", ⟨20, [("市场空间", 8), ("竞争分析", 6), ("市场策略", 6)]⟩),
  ("商业模式", ⟨20, [("盈利模式", 8), ("运营模式", 6), ("发展模式", 6)]⟩),
  ("财务情况", ⟨10, [("财务状况", 5), ("融资需求", 5)]⟩)]

/-- The dict `evaluate_business_plan` returns: per-dimension results, total
score, merged missing information, and the summary string. -/
structure EvaluationResult where
  dimensions : List (String × Json)
  total_score : ℚ
  missing_information : List Json
  evaluation_summary : String

/-- Python's `result["score"]` as summed by the aggregator (line 82): a JSON
number contributes its value, a JSON boolean its int value (Python `bool` is
an `int`); any other value makes the `sum` raise `TypeError`. -/
def scoreOfResult (j : Json) : Option ℚ :=
  match j.getKey "score" with
  | some (.num q) => some q
  | some (.bool b) => some (if b then 1 else 0)
  | _ => none

/-- `sum(result["score"] for result in evaluation_results.values())`:
`none` models the `TypeError` the sum raises on a non-numeric score. -/
def sumScores : List (String × Json) → Option ℚ
  | [] => some 0
  | (_, j) :: rest =>
      match scoreOfResult j, sumScores rest with
      | some q, some s => some (q + s)
      | _, _ => none

/-- Python iteration over a JSON value, as `list.extend` consumes it: the
elements of an array, the characters of a string, the keys of an object;
`none` models the `TypeError` for non-iterable values. -/
def pyIterElems : Json → Option (List Json)
  | .arr xs => some xs
  | .str s => some (s.toList.map fun c => .str (String.mk [c]))
  | .obj fs => some (fs.map fun f => .str f.1)
  | _ => none

/-- The aggregator's missing-information merge (lines 77-79): for each
dimension result carrying a `missing_info` key, extend the collected list
with its elements; `none` models a `TypeError` from a non-iterable value. -/
def collectMissing : List (String × Json) → Option (List Json)
  | [] => some []
  | (_, j) :: rest =>
      match j.getKey "missing_info" with
      | none => collectMissing rest
      | some v =>
          match pyIterElems v, collectMissing rest with
          | some xs, some ys => some (xs ++ ys)
          | _, _ => none

/-- `DeepSeekClient._get_fallback_evaluation` (lines 303-320): the fixed
whole-pipeline fallback. -/
def get_fallback_evaluation : EvaluationResult where
  dimensions := [
    ("团队能力", .obj [("score", .num 18), ("max_score", .num 30), ("comments", .str "需要人工评审")]),
    ("产品&技术", .obj [("score", .num 12), ("max_score", .num 20), ("comments", .str "需要人工评审")]),
    ("市场前景", .obj [("score", .num 12), ("max_score", .num 20), ("comments", .str "需要人工评审")]),
    ("商业模式", .obj [("score", .num 12), ("max_score", .num 20), ("comments", .str "需要人工评审")]),
    ("财务情况", .obj [("score", .num 6), ("max_score", .num 10), ("comments", .str "需要人工评审")])]
  total_score := 60
  missing_information :=
    [.obj [("type", .str "AI评估失败"), ("description", .str "自动评估失败，需要人工评审")]]
  evaluation_summary := "自动评估失败，建议人工评审"

/-- The per-dimension results the aggregator computes, given the service
call outcome for each dimension. -/
def dimension_results (responses : String → ServiceResponse) : List (String × Json) :=
  deepseek_dimensions.map fun d => (d.1, evaluate_dimension d.1 d.2 (responses d.1))

/-- `DeepSeekClient.evaluate_business_plan` (lines 16-94): evaluate every
rubric dimension in order, merge missing information, sum the scores and
attach the summary; any exception inside the traversal (a non-iterable
`missing_info` value, a non-numeric score in the sum) is caught by the
top-level handler, which returns `_get_fallback_evaluation()`. -/
def evaluate_business_plan (responses : String → ServiceResponse) : EvaluationResult :=
  match collectMissing (dimension_results responses), sumScores (dimension_results responses) with
  | some mi, some total =>
      { dimensions := dimension_results responses
        total_score := total
        missing_information := mi
        evaluation_summary := generate_summary total }
  | _, _ => get_fallback_evaluation

/-! ### The Text Extractor (`app/services/document/processor.py`) -/

/-- Run-collapsing worker: `prevSpace` records whether the previous character
belonged to a whitespace run already replaced. -/
def collapseWsGo (prevSpace : Bool) : List Char → List Char
  | [] => []
  | c :: cs =>
      if pyIsSpace c then
        if prevSpace then collapseWsGo true cs
        else ' ' :: collapseWsGo true cs
      else c :: collapseWsGo false cs

/-- Python `re.sub(r'\s+', ' ', text)`: every maximal whitespace run becomes
one space. -/
def collapseWs (cs : List Char) : List Char :=
  collapseWsGo false cs

/-- The index of the last character satisfying `p`, if any. -/
def lastIdxWhere (p : Char → Bool) : List Char → Option Nat
  | [] => none
  | c :: cs =>
      match lastIdxWhere p cs with
      | some j => some (j + 1)
      | none => if p c then some 0 else none

/-- The `\s*\n` continuation of the pattern `\n\s*\n` at the head of `cs`:
greedy whitespace, backtracking so that a `'\n'` ends the match.  `some rest`
is the input after the consumed match. -/
def matchNlTail (cs : List Char) : Option (List Char) :=
  match lastIdxWhere (fun c => c = '\n') (cs.takeWhile pyIsSpace) with
  | none => none
  | some k => some (cs.drop (k + 1))

/-- Python `re.sub(r'\n\s*\n', '\n\n', text)`, scanning left to right; the
replacement is not rescanned.  Fuel-driven (the fuel starts at the input
length; every step consumes at least one character). -/
def subNlNl : Nat → List Char → List Char
  | 0, s => s
  | _, [] => []
  | fuel + 1, c :: cs =>
      if c = '\n' then
        match matchNlTail cs with
        | some rest => '\n' :: '\n' :: subNlNl fuel rest
        | none => c :: subNlNl fuel cs
      else c :: subNlNl fuel cs

/-- A CJK unified ideograph (the `'一' <= char <= '鿿'` test of
`_clean_extracted_text`). -/
def isCJK (c : Char) : Bool :=
  '一' ≤ c ∧ c ≤ '鿿'

/-- `DocumentProcessor._clean_extracted_text` (lines 81-105): collapse
whitespace runs to single spaces, map form feeds and carriage returns to
newlines, collapse blank lines, then drop stripped lines that are at most 3
characters long and contain no CJK character, rejoining with newlines. -/
def clean_extracted_text (text : List Char) : List Char :=
  if text = [] then []
  else
    let t1 := collapseWs text
    let t2 := t1.map fun c => if c = '\x0c' ∨ c = '\r' then '\n' else c
    let t3 := subNlNl t2.length t2
    let lines := t3.splitOn '\n'
    let cleaned := (lines.map pyStrip).filter fun line =>
      3 < line.length ∨ line.any isCJK
    pyStrip (List.intercalate ['\n'] cleaned)

/-- The page loop of `extract_text_from_pdf` (lines 55-64): each page whose
extraction succeeds with non-empty text contributes a page marker, its text
and a newline; a page whose `extract_text` raises is skipped. -/
def pagesText (i : Nat) : List (Option String) → List Char
  | [] => []
  | p :: rest =>
      (match p with
        | some t =>
            if t.toList ≠ [] then
              '\n' :: ("--- 第".toList ++ (toString (i + 1)).toList ++ "页 ---".toList)
                ++ '\n' :: t.toList ++ ['\n']
            else []
        | none => [])
      ++ pagesText (i + 1) rest

/-- `DocumentProcessor._generate_fallback_text` (lines 107-128): the
deterministic self-describing fallback block, with the file path and size
interpolated. -/
def generate_fallback_text (file_path : String) (file_size : Nat) : String :=
  "\n商业计划书文档处理说明\n\n文件路径: " ++ file_path
    ++ "\n文件大小: " ++ toString file_size ++ " 字节"
    ++ "\n处理状态: 文本提取失败或内容不足\n\n可能的原因:"
    ++ "\n1. PDF文件为图片格式，无法提取文字"
    ++ "\n2. PDF文件加密或损坏"
    ++ "\n3. 文件内容过少\n\n建议处理方式:"
    ++ "\n1. 请确保PDF文件包含可选择的文字内容"
    ++ "\n2. 如果是扫描件，请提供文字版本的PDF"
    ++ "\n3. 检查PDF文件是否完整且未加密"
    ++ "\n\n注意: 由于无法提取文档内容，本次评估将需要人工审核。"
    ++ "\n请评审专家手动查看原始PDF文件进行评分。\n"

/-- What the filesystem and PyPDF2 report about one input path: whether the
file exists, its byte size, whether its header starts with `%PDF`, whether
it is encrypted and whether `decrypt("")` succeeds, and the per-page
extraction outcomes. -/
structure FileView where
  file_path : String
  file_exists : Bool
  size : Nat
  header_is_pdf : Bool
  encrypted : Bool
  decrypt_ok : Bool
  pages : List (Option String)

/-- A call of `extract_text_from_pdf` either raises to its caller or returns
text. -/
inductive ExtractOutcome where
  | raises (exc : String)
  | returns (text : String)
  deriving Repr, DecidableEq

/-- `DocumentProcessor.extract_text_from_pdf` (lines 13-79).  Every failure
raised inside the `try` block reaches the handler at line 76, which builds
the fallback from the local `file_size`; when the failure precedes the
`file_size` assignment at line 25 (the file does not exist), that local is
unbound and the handler itself raises `UnboundLocalError`, which propagates
to the caller. -/
def extract_text_from_pdf (f : FileView) : ExtractOutcome :=
  if ¬ f.file_exists then
    .raises "UnboundLocalError"
  else if f.size = 0 then
    .returns (generate_fallback_text f.file_path f.size)
  else if ¬ f.header_is_pdf then
    .returns (generate_fallback_text f.file_path f.size)
  else if f.encrypted ∧ ¬ f.decrypt_ok then
    .returns (generate_fallback_text f.file_path f.size)
  else
    let cleaned := clean_extracted_text (pagesText 0 f.pages)
    if (pyStrip cleaned).length < 100 then
      .returns (generate_fallback_text f.file_path f.size)
    else
      .returns (String.mk cleaned)

/-! ### Text chunking (`DocumentProcessor.chunk_text`, lines 130-169) -/

/-- A sentence-terminal character, Chinese or Latin (`'。！？.!?'`). -/
def sentenceTerminal (c : Char) : Bool :=
  c = '。' ∨ c = '！' ∨ c = '？' ∨ c = '.' ∨ c = '!' ∨ c = '?'

/-- The slice `t[s:e]` of a character list. -/
def sliceChars (t : List Char) (s e : Nat) : List Char :=
  (t.drop s).take (e - s)

/-- The backward sentence-boundary scan
`for i in range(end, max(start + chunk_size - 200, start), -1)` (lines
154-157): the largest index `i` with `lo < i ≤ e` (where
`lo = max (start + chunk_size - 200) start`; the window width 200 is a
literal in the source, independent of the `overlap` parameter) such that
`text[i]` is a sentence terminal. -/
def find_sentence_end (t : List Char) (chunk_size start e : Nat) : Option Nat :=
  (lastIdxWhere sentenceTerminal
      (sliceChars t (max (start + chunk_size - 200) start + 1) (e + 1))).map
    (fun j => max (start + chunk_size - 200) start + 1 + j)

/-- The clamped end `end = start + chunk_size; if end > text_length: end =
text_length` (lines 146-149). -/
def chunk_end1 (t : List Char) (chunk_size start : Nat) : Nat :=
  if start + chunk_size > t.length then t.length else start + chunk_size

/-- One iteration's final `end` value: the clamped end, moved just past a
sentence terminal when the backward scan finds one (the scan runs only when
the clamped end is strictly inside the text). -/
def chunk_end (t : List Char) (chunk_size start : Nat) : Nat :=
  if chunk_end1 t chunk_size start < t.length then
    match find_sentence_end t chunk_size start (chunk_end1 t chunk_size start) with
    | some i => i + 1
    | none => chunk_end1 t chunk_size start
  else chunk_end1 t chunk_size start

/-- The `while start < text_length` loop of `chunk_text`, producing the
`(start, end)` spans it slices.  Fuel-driven so that it evaluates inside the
kernel; each iteration strictly increases `start`
(`start = max(end - overlap, start + 1)`), so fuel `t.length + 1 - start`
never runs out. -/
def chunkSpansGo (t : List Char) (chunk_size ov : Nat) : Nat → Nat → List (Nat × Nat)
  | 0, _ => []
  | fuel + 1, start =>
      if start < t.length then
        if chunk_end t chunk_size start = t.length then [(start, chunk_end t chunk_size start)]
        else (start, chunk_end t chunk_size start)
          :: chunkSpansGo t chunk_size ov fuel (max (chunk_end t chunk_size start - ov) (start + 1))
      else []

/-- The spans of the chunk loop from a given start. -/
def chunkSpans (t : List Char) (chunk_size ov start : Nat) : List (Nat × Nat) :=
  chunkSpansGo t chunk_size ov (t.length + 1 - start) start

/-- `DocumentProcessor.chunk_text`: empty input gives no chunks; otherwise
whitespace is normalised (`re.sub(r'\s+', ' ', text).strip()`); text no
longer than `chunk_size` is returned whole; longer text is sliced along the
loop's spans, each slice stripped, and empty stripped slices skipped. -/
def chunk_text (text : String) (chunk_size ov : Nat) : List String :=
  if text = "" then []
  else if (pyStrip (collapseWs text.toList)).length ≤ chunk_size then
    [String.mk (pyStrip (collapseWs text.toList))]
  else
    (((chunkSpans (pyStrip (collapseWs text.toList)) chunk_size ov 0).map fun sp =>
      pyStrip (sliceChars (pyStrip (collapseWs text.toList)) sp.1 sp.2)).filter
      (· ≠ [])).map String.mk

/-- Concatenation with the overlaps removed: the first chunk whole, each
subsequent chunk with its first `ov` characters dropped — the reading of
"concatenating the returned chunks with the overlaps removed" for a chunker
whose every later chunk starts `ov` characters before its predecessor's
end. -/
def overlap_concat (ov : Nat) : List (List Char) → List Char
  | [] => []
  | c :: rest => c ++ (rest.map (List.drop ov)).flatten

/-! ### The Score Store (`app/api/v1/scores.py` and `app/models/score.py`)

The relational store is modelled as in-memory tables with a counter standing
for the uuid generator (`DB.next_id`); a well-formedness invariant (`DB.WF`)
says existing rows use ids below the counter, which is what uuid freshness
gives the real system. -/

/-- `SubDimensionScore` (`app/models/score.py`, lines 8-18). -/
structure SubDimensionScore where
  sub_dimension : String
  score : ℚ
  max_score : ℚ
  comments : Option String
  deriving DecidableEq, Repr

/-- `DimensionScore` (`app/models/score.py`, lines 21-32). -/
structure DimensionScore where
  dimension : String
  score : ℚ
  max_score : ℚ
  comments : Option String
  sub_dimensions : List SubDimensionScore
  deriving DecidableEq, Repr

/-- The `score_not_exceed_max` validator body (`app/models/score.py`, lines
14-18 and 28-32): it raises only when `'max_score' in values` and the score
exceeds it.  Under pydantic v1, `values` holds exactly the fields declared
BEFORE the validated field — and in both models `max_score` is declared
after `score`, so the guard is `False` at runtime and the check never
fires.  `values_fields` names the fields `values` holds at the call. -/
def score_not_exceed_max (values_fields : List String) (score max_score : ℚ) : Bool :=
  if "max_score" ∈ values_fields then decide (score ≤ max_score) else true

/-- Pydantic validation of one `SubDimensionScore`: field constraints in
declaration order (`sub_dimension` length 1-100, `score ≥ 0`, the
`score_not_exceed_max` validator with `values = {sub_dimension}`,
`max_score > 0`). -/
def validate_SubDimensionScore (s : SubDimensionScore) : Bool :=
  decide (1 ≤ s.sub_dimension.length) && decide (s.sub_dimension.length ≤ 100)
    && decide (0 ≤ s.score)
    && score_not_exceed_max ["sub_dimension"] s.score s.max_score
    && decide (0 < s.max_score)

/-- Pydantic validation of one `DimensionScore` (same field order; the
validator's `values` holds only `dimension`). -/
def validate_DimensionScore (d : DimensionScore) : Bool :=
  decide (1 ≤ d.dimension.length) && decide (d.dimension.length ≤ 100)
    && decide (0 ≤ d.score)
    && score_not_exceed_max ["dimension"] d.score d.max_score
    && decide (0 < d.max_score)
    && d.sub_dimensions.all validate_SubDimensionScore

/-- Pydantic validation of a `ScoreUpdate` body (`app/models/score.py`,
lines 48-56): every dimension validates and the dimension names are
pairwise distinct. -/
def validate_ScoreUpdate (dims : List DimensionScore) : Bool :=
  dims.all validate_DimensionScore && decide (dims.map fun d => d.dimension).Nodup

/-- A row of the `scores` table. -/
structure ScoreRow where
  id : Nat
  project_id : String
  dimension : String
  score : ℚ
  max_score : ℚ
  comments : Option String
  deriving DecidableEq, Repr

/-- A row of the `score_details` table. -/
structure ScoreDetailRow where
  id : Nat
  score_id : Nat
  sub_dimension : String
  score : ℚ
  max_score : ℚ
  comments : Option String
  deriving DecidableEq, Repr

/-- One sub-dimension inside a history snapshot (comments denormalised to a
plain string via `sub.comments or ""`). -/
structure HistSubDim where
  sub_dimension : String
  score : ℚ
  max_score : ℚ
  comments : String
  deriving DecidableEq, Repr

/-- One dimension inside a history snapshot. -/
structure HistDim where
  dimension : String
  score : ℚ
  max_score : ℚ
  comments : String
  sub_dimensions : List HistSubDim
  deriving DecidableEq, Repr

/-- A row of the `review_history` table. -/
structure HistoryRow where
  id : Nat
  project_id : String
  total_score : ℚ
  dimensions : List HistDim
  modified_by : String
  modification_notes : String
  deriving DecidableEq, Repr

/-- A row of the `projects` table (the columns the score endpoints touch). -/
structure ProjectRow where
  id : String
  status : String
  deriving DecidableEq, Repr

/-- The relational store. -/
structure DB where
  projects : List ProjectRow
  scores : List ScoreRow
  score_details : List ScoreDetailRow
  review_history : List HistoryRow
  next_id : Nat
  deriving Repr

/-- Id freshness: every stored id the score endpoints compare against is
below the generator counter (what uuid4 freshness provides). -/
def DB.WF (db : DB) : Prop :=
  (∀ r ∈ db.scores, r.id < db.next_id)
    ∧ (∀ x ∈ db.score_details, x.score_id < db.next_id)

/-- Hex digit (for the canonical uuid form). -/
def isHexDigitChar (c : Char) : Bool :=
  isDigitChar c ∨ ('a' ≤ c ∧ c ≤ 'f') ∨ ('A' ≤ c ∧ c ≤ 'F')

/-- Model of the `uuid.UUID(project_id)` format check, for the canonical
36-character hex-and-dash form (the only form exercised here; Python also
accepts some other spellings, which no identifier in this development
uses). -/
def is_canonical_uuid (s : String) : Bool :=
  let cs := s.toList
  cs.length = 36 && (List.range 36).all fun i =>
    if i = 8 ∨ i = 13 ∨ i = 18 ∨ i = 23 then cs.getD i ' ' = '-'
    else isHexDigitChar (cs.getD i ' ')

/-- `STANDARD_DIMENSIONS` (`app/models/score.py`, lines 74-114); it is a
verbatim duplicate of the rubric hard-coded in the DeepSeek client. -/
def STANDARD_DIMENSIONS : List (String × DimConfig) := [
  ("团队能力", ⟨30, [("核心团队背景", 10), ("团队完整性", 10), ("团队执行力", 10)]⟩),
  ("产品&技术", ⟨20, [("技术创新性", 8), ("产品成熟度", 6), ("研发能力", 6)]⟩),
  ("市场前景", ⟨20, [("市场空间", 8), ("竞争分析", 6), ("市场策略", 6)]⟩),
  ("商业模式", ⟨20, [("盈利模式", 8), ("运营模式", 6), ("发展模式", 6)]⟩),
  ("财务情况", ⟨10, [("财务状况", 5), ("融资需求", 5)]⟩)]

/-- The default all-zero structure `get_project_scores` builds when a project
has no score rows (`app/api/v1/scores.py`, lines 126-145). -/
def default_zero_dimensions : List DimensionScore :=
  STANDARD_DIMENSIONS.map fun d =>
    { dimension := d.1, score := 0, max_score := d.2.max_score, comments := some "",
      sub_dimensions := d.2.sub_dimensions.map fun s =>
        { sub_dimension := s.1, score := 0, max_score := s.2, comments := some "" } }

/-- The `scores` rows of one project, in table order. -/
def scoresFor (db : DB) (pid : String) : List ScoreRow :=
  db.scores.filter fun r => r.project_id = pid

/-- The `score_details` rows of one score row. -/
def detailsFor (db : DB) (sid : Nat) : List ScoreDetailRow :=
  db.score_details.filter fun x => x.score_id = sid

/-- A detail row as the pydantic model `row_to_dimension_score` rebuilds. -/
def detail_to_sub (x : ScoreDetailRow) : SubDimensionScore :=
  ⟨x.sub_dimension, x.score, x.max_score, x.comments⟩

/-- `row_to_dimension_score` (`app/api/v1/scores.py`, lines 76-94). -/
def row_to_dimension_score (r : ScoreRow) (subs : List ScoreDetailRow) : DimensionScore :=
  ⟨r.dimension, r.score, r.max_score, r.comments, subs.map detail_to_sub⟩

/-- The dimension list `get_project_scores` assembles from the tables. -/
def readDims (db : DB) (pid : String) : List DimensionScore :=
  (scoresFor db pid).map fun r => row_to_dimension_score r (detailsFor db r.id)

/-- `get_project_scores` (`app/api/v1/scores.py`, lines 97-152): 400 on a
malformed id, 404 on a missing project, the assembled dimensions otherwise —
substituting the all-zero default when no score rows exist. -/
def get_project_scores (db : DB) (pid : String) : Except Nat (List DimensionScore) :=
  if ¬ is_canonical_uuid pid then .error 400
  else if ¬ db.projects.any fun p => p.id = pid then .error 404
  else if readDims db pid = [] then .ok default_zero_dimensions
  else .ok (readDims db pid)

/-- The sub-dimension insert loop (`update_project_scores`, lines 208-221). -/
def insert_subs (sid : Nat) : List SubDimensionScore → DB → DB
  | [], db => db
  | s :: rest, db =>
      insert_subs sid rest
        { db with
          score_details := db.score_details
            ++ [⟨db.next_id, sid, s.sub_dimension, s.score, s.max_score, s.comments⟩],
          next_id := db.next_id + 1 }

/-- The dimension insert loop (`update_project_scores`, lines 189-221). -/
def insert_dims (pid : String) : List DimensionScore → DB → DB
  | [], db => db
  | d :: rest, db =>
      let sid := db.next_id
      insert_dims pid rest
        (insert_subs sid d.sub_dimensions
          { db with
            scores := db.scores
              ++ [⟨sid, pid, d.dimension, d.score, d.max_score, d.comments⟩],
            next_id := db.next_id + 1 })

/-- One sub-score as `save_score_history_after_update` snapshots it. -/
def snapshot_sub (s : SubDimensionScore) : HistSubDim :=
  ⟨s.sub_dimension, s.score, s.max_score, s.comments.getD ""⟩

/-- The denormalised dimension copies a history entry stores. -/
def snapshot_dims (dims : List DimensionScore) : List HistDim :=
  dims.map fun d =>
    ⟨d.dimension, d.score, d.max_score, d.comments.getD "",
      d.sub_dimensions.map snapshot_sub⟩

/-- The note `update_project_scores` passes for the history entry. -/
def manual_note (total_score : ℚ) : String :=
  "手动评分修改 (新总分: " ++ toString total_score ++ "/100)"

/-- `save_score_history_after_update` (`app/api/v1/scores.py`, lines 21-73):
append one `review_history` row holding the NEW scores' total and a full
denormalised copy, authored `manual_edit`; its own failures are swallowed —
the store model always succeeds. -/
def save_score_history_after_update (pid : String) (new_scores : List DimensionScore)
    (modification_notes : Option String) (db : DB) : DB :=
  { db with
    review_history := db.review_history
      ++ [⟨db.next_id, pid, (new_scores.map fun s => s.score).sum,
        snapshot_dims new_scores, "manual_edit",
        modification_notes.getD "手动评分修改"⟩],
    next_id := db.next_id + 1 }

/-- The delete phase of `update_project_scores` (lines 179-186): drop the
`score_details` rows of the project's score rows, then its `scores` rows. -/
def delete_scores (db : DB) (pid : String) : DB :=
  { db with
    score_details := db.score_details.filter fun x =>
      ¬ ((scoresFor db pid).map fun r => r.id).contains x.score_id,
    scores := db.scores.filter fun r => ¬ r.project_id = pid }

/-- Line 226-229: the project's status is set to the literal `"completed"`. -/
def set_status_completed (db : DB) (pid : String) : DB :=
  { db with projects := db.projects.map fun p =>
      if p.id = pid then { p with status := "completed" } else p }

/-- The state a successful `update_project_scores` commits: delete, insert,
force the status, append the history entry. -/
def update_result (db : DB) (pid : String) (su : List DimensionScore) : DB :=
  save_score_history_after_update pid su
    (some (manual_note ((su.map fun d => d.score).sum)))
    (set_status_completed (insert_dims pid su (delete_scores db pid)) pid)

/-- `update_project_scores` (`app/api/v1/scores.py`, lines 155-248): validate
the body (pydantic, at the FastAPI boundary: 422) and the id (400), require
the project (404); delete the project's `score_details` then `scores` rows;
insert the new rows; set the project's status to the literal `"completed"`
(line 227); append the history entry.  The endpoint's response re-reads the
scores via `get_project_scores` on the returned state. -/
def update_project_scores (db : DB) (pid : String) (score_update : List DimensionScore) :
    Except Nat DB :=
  if ¬ validate_ScoreUpdate score_update then .error 422
  else if ¬ is_canonical_uuid pid then .error 400
  else if ¬ db.projects.any fun p => p.id = pid then .error 404
  else .ok (update_result db pid score_update)

/-- The history projection the claims compare: subject, total, author and the
denormalised copy. -/
def histProj (h : HistoryRow) : String × ℚ × String × List HistDim :=
  (h.project_id, h.total_score, h.modified_by, h.dimensions)

/-! ### Concrete states used by the closed theorems below -/

/-- A canonical project id. -/
def pid0 : String := "00000000-0000-0000-0000-000000000000"

/-- A fresh store holding one project in `processing`. -/
def db_fresh : DB := ⟨[⟨pid0, "processing"⟩], [], [], [], 0⟩

/-- A manual score update whose single dimension exceeds its maximum
(50 > 30) under a name that is not a rubric key. -/
def su_overmax : List DimensionScore :=
  [⟨"自定义维度", 50, 30, some "", [⟨"子项", 20, 10, some ""⟩]⟩]

/-- The store after committing `su_overmax`. -/
def db_overmax : DB := (update_project_scores db_fresh pid0 su_overmax).toOption.getD db_fresh

/-- A manual score update totalling 30 (far below the 60 threshold). -/
def su_total30 : List DimensionScore := [⟨"团队能力", 30, 30, some "", []⟩]

/-- The store after committing `su_total30`. -/
def db_total30 : DB := (update_project_scores db_fresh pid0 su_total30).toOption.getD db_fresh

/-- Two successive manual updates used by the history witness. -/
def su_first : List DimensionScore :=
  [⟨"团队能力", 25, 30, some "好", [⟨"核心团队背景", 9, 10, some ""⟩]⟩]

/-- The second update of the witness run. -/
def su_second : List DimensionScore :=
  [⟨"团队能力", 12, 30, none, [⟨"核心团队背景", 4, 10, none⟩]⟩,
   ⟨"财务情况", 8, 10, some "", []⟩]

/-- The store after the first witness update. -/
def db_after_first : DB := (update_project_scores db_fresh pid0 su_first).toOption.getD db_fresh

/-- The store after the second witness update. -/
def db_after_second : DB :=
  (update_project_scores db_after_first pid0 su_second).toOption.getD db_fresh

/-- A 4002-character text: 4000 `a`s, a Chinese full stop, one more letter.
The backward sentence scan starts AT the clamped end (index 4000), finds the
full stop there and produces a 4001-character first chunk. -/
def bigT2 : List Char := List.replicate 4000 'a' ++ ['。', 'b']

/-- A 4001-character text with a space at index 3999: the first chunk's
slice ends just after that space, per-chunk stripping drops it, and the
overlap-removed concatenation of the returned chunks loses one character. -/
def bigT3 : List Char := List.replicate 3999 'a' ++ [' ', 'b']

/-- C1: `classify` is a pure, total function of an optional total score:
absent ↦ (processing, none); `< 60` ↦ (failed, fail); `60 ≤ x < 80` ↦
(pending_review, conditional); `≥ 80` ↦ (completed, pass); and at the
boundaries `classify(59.999) = failed`, `classify(60) = pending_review`,
`classify(79.999) = pending_review`, `classify(80) = completed`. -/
theorem calculate_status_matches_table :
    (calculate_status_from_score none = .processing
      ∧ calculate_review_result_from_score none = none)
    ∧ (∀ q : ℚ,
        (calculate_status_from_score (some q) = .failed ↔ q < 60)
        ∧ (calculate_status_from_score (some q) = .pending_review ↔ 60 ≤ q ∧ q < 80)
        ∧ (calculate_status_from_score (some q) = .completed ↔ 80 ≤ q)
        ∧ (calculate_review_result_from_score (some q) = some .fail ↔ q < 60)
        ∧ (calculate_review_result_from_score (some q) = some .conditional ↔ 60 ≤ q ∧ q < 80)
        ∧ (calculate_review_result_from_score (some q) = some .pass ↔ 80 ≤ q))
    ∧ calculate_status_from_score (some (59999/1000)) = .failed
    ∧ calculate_status_from_score (some 60) = .pending_review
    ∧ calculate_status_from_score (some (79999/1000)) = .pending_review
    ∧ calculate_status_from_score (some 80) = .completed := by
  refine ⟨⟨rfl, rfl⟩, ?_, by norm_num [calculate_status_from_score],
    by norm_num [calculate_status_from_score],
    by norm_num [calculate_status_from_score],
    by norm_num [calculate_status_from_score]⟩
  intro q
  simp only [calculate_status_from_score, calculate_review_result_from_score, ge_iff_le]
  split_ifs with h80 h60 <;>
    refine ⟨?_, ?_, ?_, ?_, ?_, ?_⟩ <;> constructor <;> intro h <;>
      first
        | rfl
        | exact h80
        | exact not_le.mp h60
        | exact ⟨h60, not_le.mp h80⟩
        | exact absurd h (by decide)
        | (exfalso; first | linarith [h.1, h.2] | linarith)

/-- C6: the aggregator's three-way summary string and the status classifier
use identical thresholds: for every total score the summary is the
"excellent" string exactly when the derived status is `completed`, the
"conditional-pass" string exactly when it is `pending_review`, and the
"does not qualify" string exactly when it is `failed`. -/
theorem generate_summary_matches_classifier :
    ∀ q : ℚ,
      (generate_summary q = "优秀项目，可考虑给予企业工位"
        ↔ calculate_status_from_score (some q) = .completed)
      ∧ (generate_summary q = "符合基本入孵条件，可注册在工研院"
        ↔ calculate_status_from_score (some q) = .pending_review)
      ∧ (generate_summary q = "暂不符合入孵条件，建议完善后重新提交"
        ↔ calculate_status_from_score (some q) = .failed) := by
  intro q
  simp only [generate_summary, calculate_status_from_score, ge_iff_le]
  split_ifs with h80 h60 <;> decide

/-- C4 (amended): for every rubric dimension and input, the evaluator
returns the identical fallback result — dimension score `0.6 × max_score`,
each sub-dimension at `0.6 ×` its own max, "needs manual review" comments and
exactly one `AI评估失败` missing-information item — exactly when the service
call raises, the (code-fence-stripped) reply is not valid JSON, or the parsed
reply has no `score` entry; no failure propagates.  A syntactically valid
JSON reply carrying a `score` key is returned verbatim even when it lacks
the rest of the expected DimensionScore shape. -/
theorem evaluate_dimension_fallback :
    (∀ (dimension : String) (config : DimConfig),
      evaluate_dimension dimension config .raised
        = get_fallback_dimension_evaluation dimension config)
    ∧ (∀ (dimension : String) (config : DimConfig) (content : String),
        parse_service_reply content = none →
          evaluate_dimension dimension config (.reply content)
            = get_fallback_dimension_evaluation dimension config)
    ∧ (∀ (dimension : String) (config : DimConfig) (content : String) (j : Json),
        parse_service_reply content = some j → j.getKey "score" = none →
          evaluate_dimension dimension config (.reply content)
            = get_fallback_dimension_evaluation dimension config)
    ∧ (∀ (dimension : String) (config : DimConfig),
        (get_fallback_dimension_evaluation dimension config).getKey "score"
            = some (.num (config.max_score * (6 / 10)))
          ∧ (get_fallback_dimension_evaluation dimension config).getKey "sub_dimensions"
            = some (.arr (config.sub_dimensions.map fun sub =>
                .obj [("sub_dimension", .str sub.1), ("score", .num (sub.2 * (6 / 10))),
                  ("max_score", .num sub.2), ("comments", .str "待人工评审")]))
          ∧ (get_fallback_dimension_evaluation dimension config).getKey "missing_info"
            = some (.arr [.obj [("type", .str "AI评估失败"),
                ("description", .str (dimension ++ "维度需要人工评审"))]])) := by
  refine ⟨fun _ _ => rfl, ?_, ?_, fun _ _ => ⟨rfl, rfl, rfl⟩⟩
  · intro dimension config content h
    simp only [evaluate_dimension, h]
  · intro dimension config content j h1 h2
    simp only [evaluate_dimension, h1, h2]

/-- C4 witness: the fallback branches of `evaluate_dimension_fallback`
evaluated at concrete inputs — a raised call, a non-JSON reply, and a JSON
reply (an array) with no `score` entry. -/
theorem evaluate_dimension_fallback_witness :
    evaluate_dimension "X" ⟨10, [("a", 4)]⟩ .raised
        = get_fallback_dimension_evaluation "X" ⟨10, [("a", 4)]⟩
      ∧ evaluate_dimension "X" ⟨10, [("a", 4)]⟩ (.reply "not json")
        = get_fallback_dimension_evaluation "X" ⟨10, [("a", 4)]⟩
      ∧ evaluate_dimension "X" ⟨10, [("a", 4)]⟩ (.reply "[1, 2]")
        = get_fallback_dimension_evaluation "X" ⟨10, [("a", 4)]⟩ :=
  ⟨evaluate_dimension_fallback.1 "X" ⟨10, [("a", 4)]⟩,
   evaluate_dimension_fallback.2.1 "X" ⟨10, [("a", 4)]⟩ "not json" rfl,
   evaluate_dimension_fallback.2.2.1 "X" ⟨10, [("a", 4)]⟩ "[1, 2]"
     (.arr [.num (mkRat 1 1), .num (mkRat 2 1)]) rfl rfl⟩

/-- C4 counterexample: the reply `{"score": 5}` parses as JSON but does not
match the expected DimensionScore shape, yet `evaluate_dimension` returns it
verbatim instead of the fallback — refuting the claim that every
wrong-shaped reply yields the fallback. -/
theorem evaluate_dimension_shape_counterexample :
    parse_service_reply "\x7b\"score\": 5\x7d" = some (.obj [("score", .num (mkRat 5 1))])
    ∧ spec_expected_reply_shape (.obj [("score", .num (mkRat 5 1))]) = false
    ∧ evaluate_dimension "团队能力"
        ⟨30, [("核心团队背景", 10), ("团队完整性", 10), ("团队执行力", 10)]⟩
        (.reply "\x7b\"score\": 5\x7d")
      = .obj [("score", .num (mkRat 5 1))]
    ∧ evaluate_dimension "团队能力"
        ⟨30, [("核心团队背景", 10), ("团队完整性", 10), ("团队执行力", 10)]⟩
        (.reply "\x7b\"score\": 5\x7d")
      ≠ get_fallback_dimension_evaluation "团队能力"
        ⟨30, [("核心团队背景", 10), ("团队完整性", 10), ("团队执行力", 10)]⟩ := by
  refine ⟨rfl, rfl, rfl, fun h => ?_⟩
  have h2 := congrArg (fun j => j.hasKey "comments") h
  exact absurd h2 (by decide)

/-- C5: if the aggregator's rubric traversal itself fails (a non-iterable
`missing_info` value or a non-numeric score raising inside the `try` block),
`evaluate_business_plan` returns the complete fixed fallback: all five rubric
dimensions with scores 18, 12, 12, 12, 6 (each `0.6 ×` its max), a total of
exactly 60, exactly one missing-information item of the AI-evaluation-failed
kind, and a summary noting automatic evaluation failed — never a partial or
empty score set. -/
theorem evaluate_business_plan_fallback :
    (∀ responses : String → ServiceResponse,
        collectMissing (dimension_results responses) = none
          ∨ sumScores (dimension_results responses) = none →
        evaluate_business_plan responses = get_fallback_evaluation)
    ∧ get_fallback_evaluation.dimensions.map Prod.fst = deepseek_dimensions.map Prod.fst
    ∧ get_fallback_evaluation.dimensions.map (fun d => d.2.getKey "score")
        = [some (.num 18), some (.num 12), some (.num 12), some (.num 12), some (.num 6)]
    ∧ ((18 : ℚ) = 30 * (6 / 10) ∧ (12 : ℚ) = 20 * (6 / 10) ∧ (6 : ℚ) = 10 * (6 / 10))
    ∧ get_fallback_evaluation.total_score = 60
    ∧ get_fallback_evaluation.missing_information
        = [.obj [("type", .str "AI评估失败"), ("description", .str "自动评估失败，需要人工评审")]]
    ∧ get_fallback_evaluation.evaluation_summary = "自动评估失败，建议人工评审" := by
  refine ⟨?_, rfl, rfl, by norm_num, rfl, rfl, rfl⟩
  intro responses h
  unfold evaluate_business_plan
  rcases h with h | h
  · rw [h]
  · cases hc : collectMissing (dimension_results responses) with
    | none => rfl
    | some mi => rw [h]

/-- C7: the extractor degrades to the self-describing fallback block on a
zero-length file, non-PDF content, an unrecoverably encrypted PDF and
too-little extracted text — but for a missing file the `except` handler
itself raises `UnboundLocalError` (it reads the local `file_size`, assigned
only after the existence check), so the failure does propagate to the
caller, contradicting the never-raises claim. -/
theorem extract_text_from_pdf_divergence :
    extract_text_from_pdf ⟨"missing.pdf", false, 0, false, false, false, []⟩
        = .raises "UnboundLocalError"
      ∧ extract_text_from_pdf ⟨"empty.pdf", true, 0, true, false, false, []⟩
        = .returns (generate_fallback_text "empty.pdf" 0)
      ∧ extract_text_from_pdf ⟨"notes.txt", true, 5, false, false, false, []⟩
        = .returns (generate_fallback_text "notes.txt" 5)
      ∧ extract_text_from_pdf ⟨"locked.pdf", true, 900, true, true, false, [some "全文内容"]⟩
        = .returns (generate_fallback_text "locked.pdf" 900)
      ∧ extract_text_from_pdf ⟨"scan.pdf", true, 900, true, false, false, [some "short text"]⟩
        = .returns (generate_fallback_text "scan.pdf" 900)
      ∧ containsSub ("处理状态: 文本提取失败或内容不足".toList)
          ((generate_fallback_text "scan.pdf" 900).toList) = true
      ∧ containsSub ("请评审专家手动查看原始PDF文件进行评分。".toList)
          ((generate_fallback_text "scan.pdf" 900).toList) = true := by
  refine ⟨rfl, rfl, rfl, rfl, ?_, by decide, by decide⟩
  rfl

/-- C5 witness: a service that replies `{"score": "x"}` for every dimension
makes the aggregator's score sum raise, and the run returns the fixed
fallback. -/
theorem evaluate_business_plan_fallback_witness :
    sumScores (dimension_results fun _ => .reply "\x7b\"score\": \"x\"\x7d") = none
    ∧ evaluate_business_plan (fun _ => .reply "\x7b\"score\": \"x\"\x7d")
        = get_fallback_evaluation :=
  ⟨rfl, evaluate_business_plan_fallback.1 _ (Or.inr rfl)⟩

/-- C2: the accepted-ScoreSet invariant does not hold — the request body
carrying a dimension with `score = 50 > max_score = 30` under a non-rubric
name passes pydantic validation and commits: the `score_not_exceed_max`
validator never fires because pydantic's `values` holds only the fields
declared before `score`, and `max_score` is declared after it (had it been
declared before, the same check would reject this body), and no code compares
the submitted names against the rubric keys. -/
theorem score_validation_dead :
    validate_ScoreUpdate su_overmax = true
      ∧ (50 : ℚ) > 30
      ∧ score_not_exceed_max ["dimension", "score", "max_score"] 50 30 = false
      ∧ score_not_exceed_max ["dimension"] 50 30 = true
      ∧ update_project_scores db_fresh pid0 su_overmax = .ok db_overmax
      ∧ (scoresFor db_overmax pid0).map (fun r => (r.dimension, r.score, r.max_score))
          = [("自定义维度", 50, 30)]
      ∧ ((scoresFor db_overmax pid0).map fun r => r.dimension)
          ≠ STANDARD_DIMENSIONS.map Prod.fst := by
  refine ⟨rfl, by norm_num, by decide, rfl, rfl, rfl, by decide⟩

/-- The sub-score insert loop touches only `score_details` and the id
counter. -/
theorem insert_subs_frame (sid : Nat) :
    ∀ (subs : List SubDimensionScore) (db : DB),
      (insert_subs sid subs db).projects = db.projects
        ∧ (insert_subs sid subs db).scores = db.scores
        ∧ (insert_subs sid subs db).review_history = db.review_history
  | [], _ => ⟨rfl, rfl, rfl⟩
  | _ :: rest, _ => insert_subs_frame sid rest _

/-- The dimension insert loop touches only `scores`, `score_details` and the
id counter. -/
theorem insert_dims_frame (pid : String) :
    ∀ (dims : List DimensionScore) (db : DB),
      (insert_dims pid dims db).projects = db.projects
        ∧ (insert_dims pid dims db).review_history = db.review_history
  | [], _ => ⟨rfl, rfl⟩
  | d :: rest, db => by
      unfold insert_dims
      refine ⟨?_, ?_⟩
      · rw [(insert_dims_frame pid rest _).1, (insert_subs_frame _ _ _).1]
      · rw [(insert_dims_frame pid rest _).2, (insert_subs_frame _ _ _).2.2]

/-- C3: after a successful manual score commit the stored status is the
literal `"completed"` regardless of the committed total — committing a set
totalling 30 leaves the project `completed`, while the status classifier
derives `failed` for that total; the status is not derived from the score. -/
theorem update_status_divergence :
    update_project_scores db_fresh pid0 su_total30 = .ok db_total30
      ∧ (su_total30.map fun d => d.score).sum = 30
      ∧ db_total30.projects = [⟨pid0, "completed"⟩]
      ∧ calculate_status_from_score (some 30) = .failed
      ∧ ProjectStatus.failed.value = "failed"
      ∧ ("failed" : String) ≠ "completed"
      ∧ (∀ (db db' : DB) (pid : String) (su : List DimensionScore) (p : ProjectRow),
          update_project_scores db pid su = .ok db' → p ∈ db'.projects → p.id = pid →
          p.status = "completed") := by
  refine ⟨rfl, by simp [su_total30], rfl, by norm_num [calculate_status_from_score], rfl,
    by decide, ?_⟩
  intro db db' pid su p h hp hid
  unfold update_project_scores at h
  split_ifs at h
  simp only [Except.ok.injEq] at h
  subst h
  unfold update_result save_score_history_after_update set_status_completed at hp
  simp only [] at hp
  rw [(insert_dims_frame pid su _).1] at hp
  rcases List.mem_map.mp hp with ⟨q, _, rfl⟩
  by_cases hq : q.id = pid
  · simp [hq]
  · simp only [if_neg hq] at hid ⊢
    exact absurd hid hq

/-- What the sub-score insert loop does to `score_details`: the id counter
only grows, the rows for the inserted score id gain exactly the inserted
sub-scores in order (other score ids see no change), and every row is an old
row or carries the inserted score id. -/
theorem insert_subs_spec (sid : Nat) :
    ∀ (subs : List SubDimensionScore) (db : DB),
      db.next_id ≤ (insert_subs sid subs db).next_id
      ∧ (∀ sid', (detailsFor (insert_subs sid subs db) sid').map detail_to_sub
          = (detailsFor db sid').map detail_to_sub ++ (if sid' = sid then subs else []))
      ∧ (∀ x ∈ (insert_subs sid subs db).score_details,
          x ∈ db.score_details ∨ x.score_id = sid) := by
  intro subs
  induction subs with
  | nil =>
      intro db
      refine ⟨Nat.le_refl _, fun sid' => by simp [insert_subs], fun x hx => Or.inl hx⟩
  | cons s rest ih =>
      intro db
      set db' : DB :=
        { db with
          score_details := db.score_details
            ++ [⟨db.next_id, sid, s.sub_dimension, s.score, s.max_score, s.comments⟩],
          next_id := db.next_id + 1 } with hdb'
      have hstep : insert_subs sid (s :: rest) db = insert_subs sid rest db' := rfl
      obtain ⟨ih1, ih2, ih3⟩ := ih db'
      refine ⟨?_, ?_, ?_⟩
      · rw [hstep]; exact le_trans (Nat.le_succ _) ih1
      · intro sid'
        rw [hstep, ih2 sid']
        have hdet : detailsFor db' sid'
            = detailsFor db sid'
              ++ (if sid' = sid then
                    [⟨db.next_id, sid, s.sub_dimension, s.score, s.max_score, s.comments⟩]
                  else []) := by
          simp only [hdb', detailsFor, List.filter_append]
          by_cases h : sid' = sid <;> simp [h, eq_comm]
        rw [hdet]
        by_cases h : sid' = sid <;>
          simp [h, detail_to_sub]
      · intro x hx
        rw [hstep] at hx
        rcases ih3 x hx with hold | hnew
        · simp only [hdb', List.mem_append, List.mem_singleton] at hold
          rcases hold with h | h
          · exact Or.inl h
          · subst h; exact Or.inr rfl
        · exact Or.inr hnew

/-- What the dimension insert loop does, assuming every stored id is below
the counter: the counter only grows, reading the subject's dimensions
afterwards appends exactly the inserted dimensions (with their sub-scores)
to what was read before, and the freshness bounds are maintained. -/
theorem insert_dims_spec (pid : String) :
    ∀ (dims : List DimensionScore) (db : DB),
      (∀ r ∈ db.scores, r.id < db.next_id) →
      (∀ x ∈ db.score_details, x.score_id < db.next_id) →
      db.next_id ≤ (insert_dims pid dims db).next_id
      ∧ readDims (insert_dims pid dims db) pid = readDims db pid ++ dims
      ∧ (∀ r ∈ (insert_dims pid dims db).scores, r.id < (insert_dims pid dims db).next_id)
      ∧ (∀ x ∈ (insert_dims pid dims db).score_details,
          x.score_id < (insert_dims pid dims db).next_id) := by
  intro dims
  induction dims with
  | nil =>
      intro db hs hd
      exact ⟨Nat.le_refl _, by simp [insert_dims], hs, hd⟩
  | cons d rest ih =>
      intro db hs hd
      set sid := db.next_id with hsid
      set dbA : DB :=
        { db with
          scores := db.scores ++ [⟨sid, pid, d.dimension, d.score, d.max_score, d.comments⟩],
          next_id := db.next_id + 1 } with hdbA
      set dbB := insert_subs sid d.sub_dimensions dbA with hdbB
      have hstep : insert_dims pid (d :: rest) db = insert_dims pid rest dbB := rfl
      obtain ⟨hB1, hB2, hB3⟩ := insert_subs_spec sid d.sub_dimensions dbA
      have hframe := insert_subs_frame sid d.sub_dimensions dbA
      have hnextA : db.next_id + 1 = dbA.next_id := rfl
      have hBnext : db.next_id + 1 ≤ dbB.next_id := by rw [hnextA]; exact hB1
      -- freshness for the recursive call on dbB
      have hsB : ∀ r ∈ dbB.scores, r.id < dbB.next_id := by
        intro r hr
        rw [hframe.2.1] at hr
        simp only [hdbA, List.mem_append, List.mem_singleton] at hr
        rcases hr with h | h
        · exact lt_of_lt_of_le (hs r h) (le_trans (Nat.le_succ _) hBnext)
        · subst h; exact lt_of_lt_of_le (Nat.lt_succ_self _) hBnext
      have hdB : ∀ x ∈ dbB.score_details, x.score_id < dbB.next_id := by
        intro x hx
        rcases hB3 x hx with hold | hnew
        · simp only [hdbA] at hold
          exact lt_of_lt_of_le (hd x hold) (le_trans (Nat.le_succ _) hBnext)
        · rw [hnew]; exact lt_of_lt_of_le (Nat.lt_succ_self _) hBnext
      obtain ⟨ihr1, ihr2, ihr3, ihr4⟩ := ih dbB hsB hdB
      have hreadB : readDims dbB pid = readDims db pid ++ [d] := by
        have hscB : scoresFor dbB pid
            = scoresFor db pid ++ [⟨sid, pid, d.dimension, d.score, d.max_score, d.comments⟩] := by
          rw [scoresFor, hframe.2.1]
          simp [hdbA, scoresFor, List.filter_append]
        have holdmap : ∀ r ∈ scoresFor db pid,
            row_to_dimension_score r (detailsFor dbB r.id)
              = row_to_dimension_score r (detailsFor db r.id) := by
          intro r hr
          have hrid : r.id ≠ sid := by
            have := hs r (List.mem_of_mem_filter hr)
            omega
          have h1 := hB2 r.id
          rw [if_neg hrid] at h1
          have hdetA : detailsFor dbA r.id = detailsFor db r.id := rfl
          unfold row_to_dimension_score
          rw [h1, hdetA, List.append_nil]
        have hnewdet : (detailsFor dbB sid).map detail_to_sub = d.sub_dimensions := by
          have h1 := hB2 sid
          rw [if_pos rfl] at h1
          have hdetA : detailsFor dbA sid = detailsFor db sid := rfl
          have hempty : detailsFor db sid = [] := by
            rw [detailsFor, List.filter_eq_nil_iff]
            intro x hx
            have hxlt := hd x hx
            simp only [decide_eq_true_eq]
            omega
          rw [h1, hdetA, hempty]
          simp
        unfold readDims
        rw [hscB, List.map_append]
        congr 1
        · exact List.map_congr_left holdmap
        · simp only [List.map_cons, List.map_nil]
          congr 1
          unfold row_to_dimension_score
          rw [hnewdet]
      refine ⟨?_, ?_, ?_, ?_⟩
      · rw [hstep]
        exact le_trans (le_trans (Nat.le_succ _) hBnext) ihr1
      · rw [hstep, ihr2, hreadB, List.append_assoc]
        rfl
      · rw [hstep]; exact ihr3
      · rw [hstep]; exact ihr4

/-- Characterisation of one successful manual score replace: the body
validated, the subject's readable dimensions afterwards are exactly the
committed set, the projects table only has the subject's status forced to
`"completed"`, exactly one history entry is appended — authored
`manual_edit` with the committed set's own total and denormalised copy —
and id freshness is preserved. -/
theorem update_spec (db : DB) (pid : String) (su : List DimensionScore) (db' : DB)
    (hwf : db.WF)
    (h : update_project_scores db pid su = .ok db') :
    validate_ScoreUpdate su = true
    ∧ is_canonical_uuid pid = true
    ∧ (db.projects.any fun p => p.id = pid) = true
    ∧ readDims db' pid = su
    ∧ db'.projects = db.projects.map (fun p => if p.id = pid then { p with status := "completed" } else p)
    ∧ db'.review_history.map histProj
        = db.review_history.map histProj
          ++ [(pid, (su.map fun d => d.score).sum, "manual_edit", snapshot_dims su)]
    ∧ db'.WF
    ∧ (db'.projects.any fun p => p.id = pid) = true := by
  obtain ⟨hwfs, hwfd⟩ := hwf
  have h1 : validate_ScoreUpdate su = true := by
    by_contra h1
    unfold update_project_scores at h
    rw [if_pos h1] at h
    exact absurd h (by simp)
  have h2 : is_canonical_uuid pid = true := by
    by_contra h2
    unfold update_project_scores at h
    rw [if_neg (not_not_intro h1), if_pos h2] at h
    exact absurd h (by simp)
  have h3 : (db.projects.any fun p => p.id = pid) = true := by
    by_contra h3
    unfold update_project_scores at h
    rw [if_neg (not_not_intro h1), if_neg (not_not_intro h2), if_pos h3] at h
    exact absurd h (by simp)
  have hdb' : db' = update_result db pid su := by
    unfold update_project_scores at h
    rw [if_neg (not_not_intro h1), if_neg (not_not_intro h2), if_neg (not_not_intro h3)] at h
    simpa using h.symm
  subst hdb'
  have hs1 : ∀ r ∈ (delete_scores db pid).scores, r.id < (delete_scores db pid).next_id := by
    intro r hr
    exact hwfs r (List.mem_of_mem_filter hr)
  have hd1 : ∀ x ∈ (delete_scores db pid).score_details,
      x.score_id < (delete_scores db pid).next_id := by
    intro x hx
    exact hwfd x (List.mem_of_mem_filter hx)
  obtain ⟨hin1, hin2, hin3, hin4⟩ := insert_dims_spec pid su (delete_scores db pid) hs1 hd1
  have hread1 : readDims (delete_scores db pid) pid = [] := by
    have hsc : scoresFor (delete_scores db pid) pid = [] := by
      rw [scoresFor, List.filter_eq_nil_iff]
      intro r hr
      simp only [delete_scores, List.mem_filter] at hr
      simpa using hr.2
    rw [readDims, hsc, List.map_nil]
  have hframe := insert_dims_frame pid su (delete_scores db pid)
  refine ⟨h1, h2, h3, ?_, ?_, ?_, ⟨?_, ?_⟩, ?_⟩
  · -- readDims of the final state equals the committed set
    have hcongr : readDims (update_result db pid su) pid
        = readDims (insert_dims pid su (delete_scores db pid)) pid := by
      unfold readDims scoresFor detailsFor update_result save_score_history_after_update
        set_status_completed
      rfl
    rw [hcongr, hin2, hread1]
    rfl
  · unfold update_result save_score_history_after_update set_status_completed
    simp only []
    rw [hframe.1]
    rfl
  · unfold update_result save_score_history_after_update set_status_completed
    simp only [List.map_append]
    rw [hframe.2]
    rfl
  · intro r hr
    unfold update_result save_score_history_after_update set_status_completed at hr ⊢
    simp only [] at hr ⊢
    exact lt_of_lt_of_le (hin3 r hr) (Nat.le_succ _)
  · intro x hx
    unfold update_result save_score_history_after_update set_status_completed at hx ⊢
    simp only [] at hx ⊢
    exact lt_of_lt_of_le (hin4 x hx) (Nat.le_succ _)
  · unfold update_result save_score_history_after_update set_status_completed
    simp only [List.any_eq_true]
    rw [hframe.1]
    simp only [List.any_eq_true] at h3
    obtain ⟨p, hp, hpid⟩ := h3
    refine ⟨{ p with status := "completed" },
      List.mem_map.mpr ⟨p, hp, ?_⟩, by simpa using hpid⟩
    simp only [decide_eq_true_eq] at hpid
    simp [hpid]

/-- C8: two successive manual replaces leave exactly the second set as the
subject's current scores (full overwrite, not a merge: the read returns the
second set alone), and exactly two history entries are appended, each a
denormalised copy of its own committed set authored `manual_edit`, with
`total_score` the sum of its own set's dimension scores. -/
theorem update_twice_replaces_and_appends :
    ∀ (db db1 db2 : DB) (pid : String) (su1 su2 : List DimensionScore),
      db.WF →
      update_project_scores db pid su1 = .ok db1 →
      update_project_scores db1 pid su2 = .ok db2 →
      readDims db2 pid = su2
      ∧ (su2 ≠ [] → get_project_scores db2 pid = .ok su2)
      ∧ db2.review_history.map histProj
          = db.review_history.map histProj
            ++ [(pid, (su1.map fun d => d.score).sum, "manual_edit", snapshot_dims su1),
                (pid, (su2.map fun d => d.score).sum, "manual_edit", snapshot_dims su2)]
      ∧ db2.review_history.length = db.review_history.length + 2 := by
  intro db db1 db2 pid su1 su2 hwf h1 h2
  obtain ⟨v1, u1, a1, r1, p1, hh1, wf1, a1'⟩ := update_spec db pid su1 db1 hwf h1
  obtain ⟨v2, u2, a2, r2, p2, hh2, wf2, a2'⟩ := update_spec db1 pid su2 db2 wf1 h2
  refine ⟨r2, ?_, ?_, ?_⟩
  · intro hne
    unfold get_project_scores
    rw [if_neg (not_not_intro u2), if_neg (not_not_intro a2'),
      if_neg (by rw [r2]; exact hne), r2]
  · rw [hh2, hh1, List.append_assoc]
    rfl
  · have l1 := congrArg List.length hh1
    have l2 := congrArg List.length hh2
    simp only [List.length_map, List.length_append, List.length_cons, List.length_nil] at l1 l2
    omega

/-- C8 witness: a concrete double replace — the second set (two dimensions)
fully overwrites the first (one dimension), the read returns exactly the
second set, and the two history snapshots carry their own sets' totals. -/
theorem update_twice_witness :
    update_project_scores db_fresh pid0 su_first = .ok db_after_first
    ∧ update_project_scores db_after_first pid0 su_second = .ok db_after_second
    ∧ readDims db_after_second pid0 = su_second
    ∧ get_project_scores db_after_second pid0 = .ok su_second
    ∧ db_after_second.review_history.map histProj
        = [(pid0, (su_first.map fun d => d.score).sum, "manual_edit", snapshot_dims su_first),
           (pid0, (su_second.map fun d => d.score).sum, "manual_edit", snapshot_dims su_second)]
    ∧ db_after_second.review_history.length = 2 := by
  have h1 : update_project_scores db_fresh pid0 su_first = .ok db_after_first := rfl
  have h2 : update_project_scores db_after_first pid0 su_second = .ok db_after_second := rfl
  have hwf : db_fresh.WF := ⟨by simp [db_fresh], by simp [db_fresh]⟩
  obtain ⟨c1, c2, c3, c4⟩ :=
    update_twice_replaces_and_appends db_fresh db_after_first db_after_second pid0
      su_first su_second hwf h1 h2
  exact ⟨h1, h2, c1, c2 (by simp [su_second]), by simpa using c3, by simpa using c4⟩

/-- Stripping never lengthens a string. -/
theorem pyStrip_length_le (l : List Char) : (pyStrip l).length ≤ l.length := by
  unfold pyStrip
  rw [List.length_reverse]
  calc (List.dropWhile pyIsSpace (List.dropWhile pyIsSpace l).reverse).length
      ≤ (List.dropWhile pyIsSpace l).reverse.length := (List.dropWhile_sublist _).length_le
    _ = (List.dropWhile pyIsSpace l).length := List.length_reverse _
    _ ≤ l.length := (List.dropWhile_sublist _).length_le

/-- A found last index is inside the list. -/
theorem lastIdxWhere_lt_length (p : Char → Bool) :
    ∀ (l : List Char) (j : Nat), lastIdxWhere p l = some j → j < l.length := by
  intro l
  induction l with
  | nil => intro j h; simp [lastIdxWhere] at h
  | cons c cs ih =>
      intro j h
      unfold lastIdxWhere at h
      cases hc : lastIdxWhere p cs with
      | some k =>
          rw [hc] at h
          simp only [Option.some.injEq] at h
          have := ih k hc
          simp only [List.length_cons]
          omega
      | none =>
          rw [hc] at h
          by_cases hp : p c
          · simp only [hp, if_true, Option.some.injEq] at h
            simp only [List.length_cons]
            omega
          · simp [hp] at h

/-- The backward sentence scan returns an index strictly above the window's
lower bound and at most the clamped end. -/
theorem find_sentence_end_some (t : List Char) (cs start e i : Nat)
    (h : find_sentence_end t cs start e = some i) :
    max (start + cs - 200) start < i ∧ i ≤ e := by
  unfold find_sentence_end at h
  cases hl : lastIdxWhere sentenceTerminal
      (sliceChars t (max (start + cs - 200) start + 1) (e + 1)) with
  | none => rw [hl] at h; simp at h
  | some j =>
      rw [hl] at h
      simp only [Option.map_some', Option.some.injEq] at h
      have hj := lastIdxWhere_lt_length _ _ _ hl
      have hlen : (sliceChars t (max (start + cs - 200) start + 1) (e + 1)).length
          ≤ (e + 1) - (max (start + cs - 200) start + 1) := by
        unfold sliceChars
        exact List.length_take_le _ _
      omega

/-- The end value when the clamped end reaches the text length. -/
theorem chunk_end_clamp (t : List Char) (cs start : Nat)
    (h : ¬ chunk_end1 t cs start < t.length) :
    chunk_end t cs start = chunk_end1 t cs start := by
  unfold chunk_end
  rw [if_neg h]

/-- The end value when the scan runs and finds nothing. -/
theorem chunk_end_none (t : List Char) (cs start : Nat)
    (hin : chunk_end1 t cs start < t.length)
    (hf : find_sentence_end t cs start (chunk_end1 t cs start) = none) :
    chunk_end t cs start = chunk_end1 t cs start := by
  unfold chunk_end
  rw [if_pos hin, hf]

/-- The end value when the scan finds a sentence terminal. -/
theorem chunk_end_some (t : List Char) (cs start i : Nat)
    (hin : chunk_end1 t cs start < t.length)
    (hf : find_sentence_end t cs start (chunk_end1 t cs start) = some i) :
    chunk_end t cs start = i + 1 := by
  unfold chunk_end
  rw [if_pos hin, hf]

/-- Bounds for one iteration's final end at the parameters the claim fixes
(`chunk_size = 4000`): it never exceeds the text length nor
`start + 4001` (one past the cap: the scan starts AT the clamped end), and a
non-final end lies at least `start + 3802` and strictly inside the text. -/
theorem chunk_end_spec (t : List Char) (start : Nat) (hs : start < t.length) :
    chunk_end t 4000 start ≤ t.length
    ∧ chunk_end t 4000 start ≤ start + 4001
    ∧ (chunk_end t 4000 start ≠ t.length →
        start + 3802 ≤ chunk_end t 4000 start ∧ chunk_end t 4000 start < t.length) := by
  by_cases h1 : start + 4000 > t.length
  · have he1 : chunk_end1 t 4000 start = t.length := by unfold chunk_end1; rw [if_pos h1]
    have h := chunk_end_clamp t 4000 start (by rw [he1]; exact lt_irrefl _)
    rw [h, he1]
    exact ⟨le_refl _, by omega, fun hne => absurd rfl hne⟩
  · have he1 : chunk_end1 t 4000 start = start + 4000 := by unfold chunk_end1; rw [if_neg h1]
    by_cases h2 : start + 4000 < t.length
    · have hin : chunk_end1 t 4000 start < t.length := by rw [he1]; exact h2
      cases hf : find_sentence_end t 4000 start (chunk_end1 t 4000 start) with
      | none =>
          rw [chunk_end_none t 4000 start hin hf, he1]
          exact ⟨by omega, by omega, fun _ => ⟨by omega, h2⟩⟩
      | some i =>
          rw [chunk_end_some t 4000 start i hin hf]
          rw [he1] at hf
          obtain ⟨hi1, hi2⟩ := find_sentence_end_some t 4000 start (start + 4000) i hf
          refine ⟨by omega, by omega, fun hne => ⟨by omega, by omega⟩⟩
    · have hnin : ¬ chunk_end1 t 4000 start < t.length := by rw [he1]; omega
      rw [chunk_end_clamp t 4000 start hnin, he1]
      exact ⟨by omega, by omega, fun hne => absurd (by omega) hne⟩

/-- Dropping from a slice moves its start. -/
theorem drop_sliceChars (t : List Char) (a b n : Nat) :
    (sliceChars t a b).drop n = sliceChars t (a + n) b := by
  unfold sliceChars
  rw [List.drop_take, List.drop_drop]
  congr 1
  omega

/-- Adjacent slices concatenate. -/
theorem sliceChars_append (t : List Char) (a b c : Nat) (hab : a ≤ b) (hbc : b ≤ c) :
    sliceChars t a b ++ sliceChars t b c = sliceChars t a c := by
  unfold sliceChars
  rw [show c - a = (b - a) + (c - b) by omega, List.take_add, List.drop_drop,
    show a + (b - a) = b by omega]

/-- The whole-text slice. -/
theorem sliceChars_full (t : List Char) : sliceChars t 0 t.length = t := by
  unfold sliceChars
  simp

/-- A slice is no longer than its index range. -/
theorem sliceChars_length_le (t : List Char) (a b : Nat) :
    (sliceChars t a b).length ≤ b - a := by
  unfold sliceChars
  exact List.length_take_le _ _

/-- Every span the loop produces starts inside the text and extends at most
`chunk_size + 1` characters past its start, never past the text. -/
theorem chunkSpansGo_span_bound (t : List Char) :
    ∀ (fuel start : Nat) (sp : Nat × Nat), sp ∈ chunkSpansGo t 4000 200 fuel start →
      sp.2 ≤ sp.1 + 4001 ∧ sp.1 < t.length ∧ sp.2 ≤ t.length := by
  intro fuel
  induction fuel with
  | zero => intro start sp h; simp [chunkSpansGo] at h
  | succ fuel ih =>
      intro start sp h
      unfold chunkSpansGo at h
      by_cases hs : start < t.length
      · rw [if_pos hs] at h
        obtain ⟨he1, he2, he3⟩ := chunk_end_spec t start hs
        by_cases hend : chunk_end t 4000 start = t.length
        · rw [if_pos hend] at h
          simp only [List.mem_singleton] at h
          subst h
          exact ⟨he2, hs, he1⟩
        · rw [if_neg hend] at h
          rcases List.mem_cons.mp h with h | h
          · subst h
            exact ⟨he2, hs, he1⟩
          · exact ih _ sp h
      · rw [if_neg hs] at h
        simp at h

/-- Telescoping of the loop's spans with their 200-character overlaps
dropped: from any start inside the text the overlap-dropped slices
concatenate to the slice from `start + 200` to the end. -/
theorem chunkSpansGo_drop_concat (t : List Char) :
    ∀ (fuel start : Nat), t.length - start < fuel → start < t.length →
      ((chunkSpansGo t 4000 200 fuel start).map fun sp =>
        (sliceChars t sp.1 sp.2).drop 200).flatten
      = sliceChars t (start + 200) t.length := by
  intro fuel
  induction fuel with
  | zero => intro start h hs; omega
  | succ fuel ih =>
      intro start h hs
      unfold chunkSpansGo
      rw [if_pos hs]
      obtain ⟨he1, he2, he3⟩ := chunk_end_spec t start hs
      by_cases hend : chunk_end t 4000 start = t.length
      · rw [if_pos hend]
        simp only [List.map_cons, List.map_nil, List.flatten_cons, List.flatten_nil,
          List.append_nil]
        rw [drop_sliceChars, hend]
      · rw [if_neg hend]
        obtain ⟨hge, hlt⟩ := he3 hend
        rw [show max (chunk_end t 4000 start - 200) (start + 1)
            = chunk_end t 4000 start - 200 by omega]
        simp only [List.map_cons, List.flatten_cons]
        rw [ih (chunk_end t 4000 start - 200) (by omega) (by omega), drop_sliceChars,
          show chunk_end t 4000 start - 200 + 200 = chunk_end t 4000 start by omega]
        exact sliceChars_append t (start + 200) (chunk_end t 4000 start) t.length
          (by omega) (by omega)

/-- The overlap-removed concatenation of a non-empty chunk list. -/
theorem overlap_concat_cons (ov : Nat) (c : List Char) (rest : List (List Char)) :
    overlap_concat ov (c :: rest) = c ++ (rest.map (List.drop ov)).flatten := rfl

/-- One unfolding step of the chunk loop. -/
theorem chunkSpansGo_succ (t : List Char) (cs ov fuel start : Nat) :
    chunkSpansGo t cs ov (fuel + 1) start
      = if start < t.length then
          if chunk_end t cs start = t.length then [(start, chunk_end t cs start)]
          else (start, chunk_end t cs start)
            :: chunkSpansGo t cs ov fuel (max (chunk_end t cs start - ov) (start + 1))
        else [] := rfl

/-- For text longer than the 4000-character cap, the raw span slices with
their 200-character overlaps removed concatenate back to the whole text. -/
theorem chunkSpans_overlap_concat (t : List Char) (h4000 : 4000 < t.length) :
    overlap_concat 200 ((chunkSpans t 4000 200 0).map fun sp => sliceChars t sp.1 sp.2)
      = t := by
  unfold chunkSpans
  rw [show t.length + 1 - 0 = t.length + 1 by omega, chunkSpansGo_succ,
    if_pos (by omega : (0:Nat) < t.length)]
  obtain ⟨he1, he2, he3⟩ := chunk_end_spec t 0 (by omega)
  by_cases hend : chunk_end t 4000 0 = t.length
  · rw [if_pos hend]
    simp only [List.map_cons, List.map_nil]
    rw [overlap_concat_cons]
    simp only [List.map_nil, List.flatten_nil, List.append_nil]
    rw [hend, sliceChars_full]
  · rw [if_neg hend]
    obtain ⟨hge, hlt⟩ := he3 hend
    rw [show max (chunk_end t 4000 0 - 200) (0 + 1) = chunk_end t 4000 0 - 200 by omega]
    simp only [List.map_cons]
    rw [overlap_concat_cons, List.map_map]
    have hcomp : (List.drop 200 ∘ fun sp : Nat × Nat => sliceChars t sp.1 sp.2)
        = fun sp : Nat × Nat => (sliceChars t sp.1 sp.2).drop 200 := rfl
    rw [hcomp,
      chunkSpansGo_drop_concat t t.length (chunk_end t 4000 0 - 200) (by omega) (by omega),
      show chunk_end t 4000 0 - 200 + 200 = chunk_end t 4000 0 by omega,
      sliceChars_append t 0 (chunk_end t 4000 0) t.length (by omega) (by omega),
      sliceChars_full]

/-- The length of a built string is its character count. -/
theorem String_length_mk (l : List Char) : (String.mk l).length = l.length := rfl

/-- `dropWhile` is the identity when the head does not satisfy the
predicate. -/
theorem dropWhile_eq_self_of_head (p : Char → Bool) (l : List Char)
    (h : ∀ c, l.head? = some c → p c = false) : l.dropWhile p = l := by
  cases l with
  | nil => rfl
  | cons c cs =>
      rw [List.dropWhile_cons, if_neg]
      simp [h c rfl]

/-- Stripping is the identity when neither end is whitespace. -/
theorem pyStrip_of_ends (l : List Char)
    (hh : ∀ c, l.head? = some c → pyIsSpace c = false)
    (hl : ∀ c, l.getLast? = some c → pyIsSpace c = false) : pyStrip l = l := by
  unfold pyStrip
  rw [dropWhile_eq_self_of_head pyIsSpace l hh,
    dropWhile_eq_self_of_head pyIsSpace l.reverse
      (fun c hc => hl c (by rwa [List.head?_reverse] at hc)),
    List.reverse_reverse]

/-- Stripping is the identity on whitespace-free text. -/
theorem pyStrip_nospace (l : List Char) (h : ∀ c ∈ l, pyIsSpace c = false) :
    pyStrip l = l :=
  pyStrip_of_ends l (fun c hc => h c (by cases l <;> simp_all))
    (fun c hc => h c (List.mem_of_mem_getLast? hc))

/-- One step of the whitespace collapse. -/
theorem collapseWsGo_cons (b : Bool) (c : Char) (cs : List Char) :
    collapseWsGo b (c :: cs)
      = if pyIsSpace c then
          (if b then collapseWsGo true cs else ' ' :: collapseWsGo true cs)
        else c :: collapseWsGo false cs := rfl

/-- One step of the last-hit search. -/
theorem lastIdxWhere_cons (p : Char → Bool) (c : Char) (cs : List Char) :
    lastIdxWhere p (c :: cs)
      = match lastIdxWhere p cs with
        | some j => some (j + 1)
        | none => if p c then some 0 else none := rfl

/-- Collapsing whitespace runs is the identity on whitespace-free text. -/
theorem collapseWsGo_nospace :
    ∀ (l : List Char), (∀ c ∈ l, pyIsSpace c = false) → ∀ b, collapseWsGo b l = l := by
  intro l
  induction l with
  | nil => intro _ _; rfl
  | cons c cs ih =>
      intro h b
      unfold collapseWsGo
      rw [if_neg (by simp [h c (by simp)])]
      rw [ih (fun x hx => h x (by simp [hx])) false]

/-- A whitespace-free non-empty prefix passes through the collapse
unchanged, resetting the run flag. -/
theorem collapseWsGo_append_ns :
    ∀ (xs : List Char), xs ≠ [] → (∀ c ∈ xs, pyIsSpace c = false) →
      ∀ (b : Bool) (rest : List Char),
        collapseWsGo b (xs ++ rest) = xs ++ collapseWsGo false rest := by
  intro xs
  induction xs with
  | nil => intro h; exact absurd rfl h
  | cons c cs ih =>
      intro _ h b rest
      show collapseWsGo b (c :: (cs ++ rest)) = c :: (cs ++ collapseWsGo false rest)
      rw [collapseWsGo_cons, if_neg (by simp [h c (by simp)])]
      by_cases hcs : cs = []
      · subst hcs
        simp
      · rw [ih hcs (fun x hx => h x (by simp [hx])) false rest]

/-- A list with no hit has no last hit index. -/
theorem lastIdxWhere_none_of (p : Char → Bool) :
    ∀ (l : List Char), (∀ c ∈ l, p c = false) → lastIdxWhere p l = none := by
  intro l
  induction l with
  | nil => intro _; rfl
  | cons c cs ih =>
      intro h
      unfold lastIdxWhere
      rw [ih (fun x hx => h x (by simp [hx]))]
      simp [h c (by simp)]

/-- The last hit of an appended list: a hit in the suffix wins, shifted by
the prefix length. -/
theorem lastIdxWhere_append (p : Char → Bool) :
    ∀ (xs ys : List Char),
      lastIdxWhere p (xs ++ ys)
        = match lastIdxWhere p ys with
          | some j => some (xs.length + j)
          | none => lastIdxWhere p xs := by
  intro xs ys
  induction xs with
  | nil =>
      cases h : lastIdxWhere p ys <;> simp [h, lastIdxWhere]
  | cons c cs ih =>
      show lastIdxWhere p (c :: (cs ++ ys)) = _
      rw [lastIdxWhere_cons, ih]
      cases h : lastIdxWhere p ys with
      | some j =>
          simp only [Option.some.injEq, List.length_cons]
          omega
      | none =>
          exact (lastIdxWhere_cons p c cs).symm

/-- The length of `bigT2`. -/
theorem bigT2_length : bigT2.length = 4002 := by
  rw [bigT2, List.length_append, List.length_replicate]
  rfl

/-- `bigT2` has no whitespace. -/
theorem bigT2_nospace : ∀ c ∈ bigT2, pyIsSpace c = false := by
  intro c hc
  simp only [bigT2, List.mem_append, List.mem_replicate, List.mem_cons,
    List.not_mem_nil, or_false] at hc
  rcases hc with ⟨-, rfl⟩ | rfl | rfl <;> decide

/-- The backward scan on `bigT2` from the clamped end 4000 hits the full
stop at index 4000 itself. -/
theorem bigT2_find : find_sentence_end bigT2 4000 0 4000 = some 4000 := by
  unfold find_sentence_end
  rw [show max (0 + 4000 - 200) 0 + 1 = 3801 by omega]
  have hslice : sliceChars bigT2 3801 (4000 + 1) = List.replicate 199 'a' ++ ['。'] := by
    unfold sliceChars bigT2
    rw [List.drop_append_eq_append_drop, List.drop_replicate, List.length_replicate,
      show (4000:Nat) - 3801 = 199 by norm_num, show (3801:Nat) - 4000 = 0 by norm_num,
      List.drop_zero, List.take_append_eq_append_take, List.take_replicate,
      List.length_replicate, show (4000 + 1 - 3801 : Nat) = 200 by norm_num,
      show min 200 199 = 199 by norm_num, show (200:Nat) - 199 = 1 by norm_num]
    rfl
  rw [hslice, lastIdxWhere_append, show lastIdxWhere sentenceTerminal ['。'] = some 0 by decide,
    List.length_replicate]
  rfl

/-- The first loop iteration on `bigT2` ends at 4001. -/
theorem bigT2_end0 : chunk_end bigT2 4000 0 = 4001 := by
  have he1 : chunk_end1 bigT2 4000 0 = 4000 := by
    unfold chunk_end1
    rw [bigT2_length, if_neg (by norm_num)]
  have hin : chunk_end1 bigT2 4000 0 < bigT2.length := by
    rw [he1, bigT2_length]; norm_num
  have hf : find_sentence_end bigT2 4000 0 (chunk_end1 bigT2 4000 0) = some 4000 := by
    rw [he1]; exact bigT2_find
  rw [chunk_end_some bigT2 4000 0 4000 hin hf]

/-- The second loop iteration on `bigT2` reaches the text end. -/
theorem bigT2_end1 : chunk_end bigT2 4000 3801 = 4002 := by
  have he1 : chunk_end1 bigT2 4000 3801 = bigT2.length := by
    unfold chunk_end1
    rw [bigT2_length, if_pos (by norm_num)]
  have hnin : ¬ chunk_end1 bigT2 4000 3801 < bigT2.length := by
    rw [he1]; exact lt_irrefl _
  rw [chunk_end_clamp bigT2 4000 3801 hnin, he1, bigT2_length]

/-- The spans of the chunk loop on `bigT2`. -/
theorem bigT2_spans : chunkSpans bigT2 4000 200 0 = [(0, 4001), (3801, 4002)] := by
  unfold chunkSpans
  rw [bigT2_length, show (4002:Nat) + 1 - 0 = 4002 + 1 from rfl, chunkSpansGo_succ,
    if_pos (by rw [bigT2_length]; norm_num), bigT2_end0,
    if_neg (by rw [bigT2_length]; norm_num),
    show max (4001 - 200) (0 + 1) = 3801 by norm_num,
    show (4002:Nat) = 4001 + 1 from rfl, chunkSpansGo_succ,
    if_pos (by rw [bigT2_length]; norm_num), bigT2_end1,
    if_pos (by rw [bigT2_length])]

/-- The first raw slice of `bigT2`. -/
theorem bigT2_slice0 : sliceChars bigT2 0 4001 = List.replicate 4000 'a' ++ ['。'] := by
  unfold sliceChars bigT2
  rw [List.drop_zero, show (4001:Nat) - 0 = 4001 from rfl, List.take_append_eq_append_take,
    List.take_replicate, List.length_replicate, show min 4001 4000 = 4000 by norm_num,
    show (4001:Nat) - 4000 = 1 by norm_num,
    show List.take 1 ['。', 'b'] = ['。'] from rfl]

/-- The second raw slice of `bigT2`. -/
theorem bigT2_slice1 : sliceChars bigT2 3801 4002 = List.replicate 199 'a' ++ ['。', 'b'] := by
  unfold sliceChars bigT2
  rw [List.drop_append_eq_append_drop, List.drop_replicate, List.length_replicate,
    show (4002:Nat) - 3801 = 201 by norm_num, show (4000:Nat) - 3801 = 199 by norm_num,
    show (3801:Nat) - 4000 = 0 by norm_num, List.drop_zero]
  rw [List.take_of_length_le (le_of_eq (by rw [List.length_append, List.length_replicate]; rfl))]

/-- The chunks `chunk_text` returns on `bigT2`: the first has 4001
characters, one more than `max_chunk_size`. -/
theorem bigT2_chunks : chunk_text (String.mk bigT2) 4000 200
    = [String.mk (List.replicate 4000 'a' ++ ['。']),
       String.mk (List.replicate 199 'a' ++ ['。', 'b'])] := by
  have hnorm : pyStrip (collapseWs (String.mk bigT2).toList) = bigT2 := by
    show pyStrip (collapseWs bigT2) = bigT2
    unfold collapseWs
    rw [collapseWsGo_nospace bigT2 bigT2_nospace false, pyStrip_nospace bigT2 bigT2_nospace]
  unfold chunk_text
  rw [if_neg (fun h => by
    have := congrArg String.length h
    rw [String_length_mk, bigT2_length] at this
    exact absurd this (by decide))]
  rw [hnorm, if_neg (by rw [bigT2_length]; norm_num), bigT2_spans]
  simp only [List.map_cons, List.map_nil]
  rw [bigT2_slice0, bigT2_slice1]
  have hns0 : ∀ c ∈ List.replicate 4000 'a' ++ ['。'], pyIsSpace c = false := by
    intro c hc
    simp only [List.mem_append, List.mem_replicate, List.mem_singleton] at hc
    rcases hc with ⟨-, rfl⟩ | rfl <;> decide
  have hns1 : ∀ c ∈ List.replicate 199 'a' ++ ['。', 'b'], pyIsSpace c = false := by
    intro c hc
    simp only [List.mem_append, List.mem_replicate, List.mem_cons,
      List.not_mem_nil, or_false] at hc
    rcases hc with ⟨-, rfl⟩ | rfl | rfl <;> decide
  rw [pyStrip_nospace _ hns0, pyStrip_nospace _ hns1]
  have hne0 : (List.replicate 4000 'a' ++ ['。']) ≠ [] := by
    intro h
    have := congrArg List.length h
    rw [List.length_append, List.length_replicate] at this
    exact absurd this (by norm_num)
  have hne1 : (List.replicate 199 'a' ++ ['。', 'b']) ≠ [] := by
    intro h
    have := congrArg List.length h
    rw [List.length_append, List.length_replicate] at this
    exact absurd this (by norm_num)
  rw [List.filter_cons, if_pos (decide_eq_true hne0), List.filter_cons,
    if_pos (decide_eq_true hne1), List.filter_nil, List.map_cons, List.map_cons,
    List.map_nil]

/-- C9's size claim fails on `bigT2`: the returned chunk lengths are 4001
and 201. -/
theorem bigT2_chunk_lengths :
    (chunk_text (String.mk bigT2) 4000 200).map String.length = [4001, 201] := by
  rw [bigT2_chunks, List.map_cons, List.map_cons, List.map_nil, String_length_mk,
    String_length_mk, List.length_append, List.length_append, List.length_replicate,
    List.length_replicate]
  rfl

/-- The length of `bigT3`. -/
theorem bigT3_length : bigT3.length = 4001 := by
  rw [bigT3, List.length_append, List.length_replicate]
  rfl

/-- A non-empty replicate of `'a'` is whitespace-free and non-empty. -/
theorem replicate_a_nospace (n : Nat) : ∀ c ∈ List.replicate n 'a', pyIsSpace c = false := by
  intro c hc
  rw [List.eq_of_mem_replicate hc]
  decide

/-- A non-empty replicate is not the empty list. -/
theorem replicate_a_ne_nil (n : Nat) (hn : n ≠ 0) : List.replicate n 'a' ≠ [] := by
  intro h
  have := congrArg List.length h
  rw [List.length_replicate] at this
  exact absurd this hn

/-- Normalisation leaves `bigT3` unchanged: its single space is already a
lone `' '` and its ends are not whitespace. -/
theorem bigT3_norm : pyStrip (collapseWs bigT3) = bigT3 := by
  have h1 : collapseWs bigT3 = bigT3 := by
    unfold collapseWs bigT3
    rw [collapseWsGo_append_ns (List.replicate 3999 'a') (replicate_a_ne_nil 3999 (by norm_num))
      (replicate_a_nospace 3999) false [' ', 'b'],
      show collapseWsGo false [' ', 'b'] = [' ', 'b'] from rfl]
  have hh : bigT3.head? = some 'a' := by
    unfold bigT3
    rw [show (3999:Nat) = 3998 + 1 from rfl, List.replicate_succ]
    rfl
  have hl : bigT3.getLast? = some 'b' := by
    unfold bigT3
    rw [show ([' ', 'b'] : List Char) = [' '] ++ ['b'] from rfl, ← List.append_assoc]
    exact List.getLast?_concat _
  have h2 : pyStrip bigT3 = bigT3 := by
    apply pyStrip_of_ends
    · intro c hc
      rw [hh, Option.some.injEq] at hc
      subst hc
      decide
    · intro c hc
      rw [hl, Option.some.injEq] at hc
      subst hc
      decide
  rw [h1, h2]

/-- The backward scan on `bigT3` finds no sentence terminal. -/
theorem bigT3_find : find_sentence_end bigT3 4000 0 4000 = none := by
  unfold find_sentence_end
  rw [show max (0 + 4000 - 200) 0 + 1 = 3801 by omega]
  have hslice : sliceChars bigT3 3801 (4000 + 1) = List.replicate 198 'a' ++ [' ', 'b'] := by
    unfold sliceChars bigT3
    rw [List.drop_append_eq_append_drop, List.drop_replicate, List.length_replicate,
      show (3999:Nat) - 3801 = 198 by norm_num, show (3801:Nat) - 3999 = 0 by norm_num,
      List.drop_zero, show (4000 + 1 - 3801 : Nat) = 200 by norm_num]
    rw [List.take_of_length_le
      (le_of_eq (by rw [List.length_append, List.length_replicate]; rfl))]
  rw [hslice, lastIdxWhere_none_of sentenceTerminal _ ?mem]
  · rfl
  case mem =>
    intro c hc
    simp only [List.mem_append, List.mem_replicate, List.mem_cons,
      List.not_mem_nil, or_false] at hc
    rcases hc with ⟨-, rfl⟩ | rfl | rfl <;> decide

/-- The first loop iteration on `bigT3` ends at the clamped end 4000. -/
theorem bigT3_end0 : chunk_end bigT3 4000 0 = 4000 := by
  have he1 : chunk_end1 bigT3 4000 0 = 4000 := by
    unfold chunk_end1
    rw [bigT3_length, if_neg (by norm_num)]
  have hin : chunk_end1 bigT3 4000 0 < bigT3.length := by
    rw [he1, bigT3_length]; norm_num
  have hf : find_sentence_end bigT3 4000 0 (chunk_end1 bigT3 4000 0) = none := by
    rw [he1]; exact bigT3_find
  rw [chunk_end_none bigT3 4000 0 hin hf, he1]

/-- The second loop iteration on `bigT3` reaches the text end. -/
theorem bigT3_end1 : chunk_end bigT3 4000 3800 = 4001 := by
  have he1 : chunk_end1 bigT3 4000 3800 = bigT3.length := by
    unfold chunk_end1
    rw [bigT3_length, if_pos (by norm_num)]
  have hnin : ¬ chunk_end1 bigT3 4000 3800 < bigT3.length := by
    rw [he1]; exact lt_irrefl _
  rw [chunk_end_clamp bigT3 4000 3800 hnin, he1, bigT3_length]

/-- The spans of the chunk loop on `bigT3`. -/
theorem bigT3_spans : chunkSpans bigT3 4000 200 0 = [(0, 4000), (3800, 4001)] := by
  unfold chunkSpans
  rw [bigT3_length, show (4001:Nat) + 1 - 0 = 4001 + 1 from rfl, chunkSpansGo_succ,
    if_pos (by rw [bigT3_length]; norm_num), bigT3_end0,
    if_neg (by rw [bigT3_length]; norm_num),
    show max (4000 - 200) (0 + 1) = 3800 by norm_num,
    show (4001:Nat) = 4000 + 1 from rfl, chunkSpansGo_succ,
    if_pos (by rw [bigT3_length]; norm_num), bigT3_end1,
    if_pos (by rw [bigT3_length])]

/-- The first raw slice of `bigT3` ends with the space at index 3999. -/
theorem bigT3_slice0 : sliceChars bigT3 0 4000 = List.replicate 3999 'a' ++ [' '] := by
  unfold sliceChars bigT3
  rw [List.drop_zero, show (4000:Nat) - 0 = 4000 from rfl, List.take_append_eq_append_take,
    List.take_replicate, List.length_replicate, show min 4000 3999 = 3999 by norm_num,
    show (4000:Nat) - 3999 = 1 by norm_num,
    show List.take 1 [' ', 'b'] = [' '] from rfl]

/-- The second raw slice of `bigT3`. -/
theorem bigT3_slice1 : sliceChars bigT3 3800 4001 = List.replicate 199 'a' ++ [' ', 'b'] := by
  unfold sliceChars bigT3
  rw [List.drop_append_eq_append_drop, List.drop_replicate, List.length_replicate,
    show (3999:Nat) - 3800 = 199 by norm_num, show (3800:Nat) - 3999 = 0 by norm_num,
    List.drop_zero, show (4001:Nat) - 3800 = 201 by norm_num]
  rw [List.take_of_length_le
    (le_of_eq (by rw [List.length_append, List.length_replicate]; rfl))]

/-- Stripping a replicate with one trailing space drops the space. -/
theorem pyStrip_trailing_space (n : Nat) (hn : n ≠ 0) :
    pyStrip (List.replicate n 'a' ++ [' ']) = List.replicate n 'a' := by
  have hhead : ∀ c, (List.replicate n 'a' ++ [' ']).head? = some c → pyIsSpace c = false := by
    intro c hc
    rw [show n = (n - 1) + 1 by omega, List.replicate_succ] at hc
    simp only [List.cons_append, List.head?_cons, Option.some.injEq] at hc
    subst hc
    decide
  unfold pyStrip
  rw [dropWhile_eq_self_of_head pyIsSpace _ hhead, List.reverse_append,
    show ([' '] : List Char).reverse = [' '] from rfl,
    show ([' '] : List Char) ++ (List.replicate n 'a').reverse
      = ' ' :: (List.replicate n 'a').reverse from rfl,
    List.dropWhile_cons, if_pos (by decide : pyIsSpace ' ' = true),
    List.reverse_replicate,
    dropWhile_eq_self_of_head pyIsSpace (List.replicate n 'a') (fun c hc => by
      rw [show n = (n - 1) + 1 by omega, List.replicate_succ] at hc
      simp only [List.head?_cons, Option.some.injEq] at hc
      subst hc
      decide),
    List.reverse_replicate]

/-- The second chunk of `bigT3` survives stripping unchanged. -/
theorem bigT3_chunk1_strip :
    pyStrip (List.replicate 199 'a' ++ [' ', 'b']) = List.replicate 199 'a' ++ [' ', 'b'] := by
  apply pyStrip_of_ends
  · intro c hc
    rw [show (199:Nat) = 198 + 1 from rfl, List.replicate_succ] at hc
    simp only [List.cons_append, List.head?_cons, Option.some.injEq] at hc
    subst hc
    decide
  · intro c hc
    rw [show ([' ', 'b'] : List Char) = [' '] ++ ['b'] from rfl, ← List.append_assoc,
      List.getLast?_concat, Option.some.injEq] at hc
    subst hc
    decide

/-- The chunks `chunk_text` returns on `bigT3`: per-chunk stripping has
dropped the boundary space from the first chunk. -/
theorem bigT3_chunks : chunk_text (String.mk bigT3) 4000 200
    = [String.mk (List.replicate 3999 'a'),
       String.mk (List.replicate 199 'a' ++ [' ', 'b'])] := by
  have hnorm : pyStrip (collapseWs (String.mk bigT3).toList) = bigT3 := bigT3_norm
  unfold chunk_text
  rw [if_neg (fun h => by
    have := congrArg String.length h
    rw [String_length_mk, bigT3_length] at this
    exact absurd this (by decide))]
  rw [hnorm, if_neg (by rw [bigT3_length]; norm_num), bigT3_spans]
  simp only [List.map_cons, List.map_nil]
  rw [bigT3_slice0, bigT3_slice1, pyStrip_trailing_space 3999 (by norm_num),
    bigT3_chunk1_strip]
  have hne0 : List.replicate 3999 'a' ≠ [] := replicate_a_ne_nil 3999 (by norm_num)
  have hne1 : (List.replicate 199 'a' ++ [' ', 'b']) ≠ [] := by
    intro h
    have := congrArg List.length h
    rw [List.length_append, List.length_replicate] at this
    exact absurd this (by norm_num)
  rw [List.filter_cons, if_pos (decide_eq_true hne0), List.filter_cons,
    if_pos (decide_eq_true hne1), List.filter_nil, List.map_cons, List.map_cons,
    List.map_nil]

/-- The overlap-removed concatenation of `bigT3`'s returned chunks loses the
stripped space: it has 4000 characters, not the text's 4001. -/
theorem bigT3_recon :
    overlap_concat 200 ((chunk_text (String.mk bigT3) 4000 200).map String.toList)
        = List.replicate 3999 'a' ++ ['b']
      ∧ overlap_concat 200 ((chunk_text (String.mk bigT3) 4000 200).map String.toList)
        ≠ bigT3 := by
  have hdrop : List.drop 200 (List.replicate 199 'a' ++ [' ', 'b']) = ['b'] := by
    rw [List.drop_append_eq_append_drop, List.drop_replicate, List.length_replicate,
      show (199:Nat) - 200 = 0 from rfl, show (200:Nat) - 199 = 1 from rfl]
    rfl
  have h1 : overlap_concat 200 ((chunk_text (String.mk bigT3) 4000 200).map String.toList)
      = List.replicate 3999 'a' ++ ['b'] := by
    rw [bigT3_chunks, List.map_cons, List.map_cons, List.map_nil,
      show (String.mk (List.replicate 3999 'a')).toList = List.replicate 3999 'a' from rfl,
      show (String.mk (List.replicate 199 'a' ++ [' ', 'b'])).toList
        = List.replicate 199 'a' ++ [' ', 'b'] from rfl,
      overlap_concat_cons, List.map_cons, List.map_nil, hdrop]
    rfl
  refine ⟨h1, ?_⟩
  rw [h1]
  intro h
  have h2 := congrArg List.length h
  rw [List.length_append, List.length_replicate, bigT3_length] at h2
  exact absurd h2 (by decide)

/-- C10: for every existing project with no stored score rows, the score
read returns the default set — exactly the five standard rubric dimensions,
each scored 0 with the rubric's maximum and empty comments, every rubric
sub-dimension present at 0 with its rubric maximum — never an empty list or
an error. -/
theorem get_project_scores_default :
    (∀ (db : DB) (pid : String),
        is_canonical_uuid pid = true →
        (db.projects.any fun p => p.id = pid) = true →
        scoresFor db pid = [] →
        get_project_scores db pid = .ok default_zero_dimensions)
    ∧ default_zero_dimensions.map (fun d => d.dimension) = STANDARD_DIMENSIONS.map Prod.fst
    ∧ (∀ d ∈ default_zero_dimensions,
        d.score = 0 ∧ d.comments = some "" ∧ ∀ s ∈ d.sub_dimensions, s.score = 0 ∧ s.comments = some "")
    ∧ default_zero_dimensions.map (fun d => d.max_score)
        = STANDARD_DIMENSIONS.map (fun d => d.2.max_score)
    ∧ default_zero_dimensions.map (fun d => d.sub_dimensions.map fun s => (s.sub_dimension, s.max_score))
        = STANDARD_DIMENSIONS.map (fun d => d.2.sub_dimensions) := by
  refine ⟨?_, rfl, ?_, rfl, rfl⟩
  · intro db pid h1 h2 h3
    unfold get_project_scores
    rw [if_neg (by simp [h1]), if_neg (by simp [h2]), if_pos (by simp [readDims, h3])]
  · intro d hd
    fin_cases hd <;> refine ⟨rfl, rfl, ?_⟩ <;> intro s hs <;> fin_cases hs <;> exact ⟨rfl, rfl⟩

/-- C10 witness: a fresh project with no score rows reads back the default
zero structure. -/
theorem get_project_scores_default_witness :
    get_project_scores ⟨[⟨"00000000-0000-0000-0000-000000000000", "processing"⟩], [], [], [], 0⟩
        "00000000-0000-0000-0000-000000000000" = .ok default_zero_dimensions :=
  get_project_scores_default.1
    ⟨[⟨"00000000-0000-0000-0000-000000000000", "processing"⟩], [], [], [], 0⟩
    "00000000-0000-0000-0000-000000000000" (by rfl) (by rfl) (by rfl)

/-- C9 (amended): for `chunk_text(text, 4000, 200)` — empty input yields no
chunks; non-empty input whose whitespace-normalised form (`re.sub(r'\s+', ' ',
text).strip()`) has at most 4000 characters yields the single chunk equal to
that normalised form (not the merely trimmed input); every returned chunk has
at most 4001 characters (not 4000: the backward sentence scan starts at the
clamped end itself, so a terminal found there extends the chunk one past the
cap); and for normalised text longer than 4000 characters the raw span
slices, concatenated with each later slice's 200-character overlap removed,
reproduce the normalised text (the returned chunks themselves do not: each
slice is re-stripped before being returned). -/
theorem chunk_text_spec :
    (chunk_text "" 4000 200 = [])
    ∧ (∀ s : String, s ≠ "" → (pyStrip (collapseWs s.toList)).length ≤ 4000 →
        chunk_text s 4000 200 = [String.mk (pyStrip (collapseWs s.toList))])
    ∧ (∀ (s c : String), c ∈ chunk_text s 4000 200 → c.length ≤ 4001)
    ∧ (∀ s : String, 4000 < (pyStrip (collapseWs s.toList)).length →
        overlap_concat 200 ((chunkSpans (pyStrip (collapseWs s.toList)) 4000 200 0).map
            fun sp => sliceChars (pyStrip (collapseWs s.toList)) sp.1 sp.2)
          = pyStrip (collapseWs s.toList)) := by
  refine ⟨rfl, ?_, ?_, ?_⟩
  · intro s hne hle
    unfold chunk_text
    rw [if_neg hne, if_pos hle]
  · intro s c hc
    unfold chunk_text at hc
    by_cases hs : s = ""
    · rw [if_pos hs] at hc
      exact absurd hc (List.not_mem_nil c)
    · rw [if_neg hs] at hc
      by_cases hle : (pyStrip (collapseWs s.toList)).length ≤ 4000
      · rw [if_pos hle, List.mem_singleton] at hc
        rw [hc, String_length_mk]
        omega
      · rw [if_neg hle] at hc
        rw [List.mem_map] at hc
        obtain ⟨l, hl, rfl⟩ := hc
        rw [List.mem_filter] at hl
        obtain ⟨hl1, -⟩ := hl
        rw [List.mem_map] at hl1
        obtain ⟨sp, hsp, rfl⟩ := hl1
        unfold chunkSpans at hsp
        have hb := chunkSpansGo_span_bound (pyStrip (collapseWs s.toList)) _ 0 sp hsp
        rw [String_length_mk]
        calc (pyStrip (sliceChars (pyStrip (collapseWs s.toList)) sp.1 sp.2)).length
            ≤ (sliceChars (pyStrip (collapseWs s.toList)) sp.1 sp.2).length :=
              pyStrip_length_le _
          _ ≤ sp.2 - sp.1 := sliceChars_length_le _ _ _
          _ ≤ 4001 := by omega
  · intro s h
    exact chunkSpans_overlap_concat _ h

/-- C9 counterexample to the claim as stated, in its three parts.  (1) On the
short input `"a  b"` the single returned chunk is `"a b"`, not the trimmed
input: interior whitespace is collapsed, so "a single chunk equal to the
trimmed input" fails.  (2) On `bigT2` (4000 `'a'`s, an ideographic full stop,
then `'b'`) a returned chunk has 4001 characters, so "no returned chunk
exceeds max_chunk_size" fails.  (3) On `bigT3` (3999 `'a'`s, a space, then
`'b'`) — which normalisation leaves unchanged, so normalisation is not the
discrepancy — concatenating the returned chunks with the overlaps removed
does not reproduce the text: per-chunk stripping drops the boundary space. -/
theorem chunk_text_claim_counterexample :
    (("a  b" : String).toList.length ≤ 4000
      ∧ chunk_text "a  b" 4000 200 = ["a b"]
      ∧ chunk_text "a  b" 4000 200 ≠ [String.mk (pyStrip (("a  b" : String).toList))])
    ∧ (∃ c, c ∈ chunk_text (String.mk bigT2) 4000 200 ∧ 4000 < c.length)
    ∧ (pyStrip (collapseWs (String.mk bigT3).toList) = bigT3
      ∧ overlap_concat 200 ((chunk_text (String.mk bigT3) 4000 200).map String.toList)
          ≠ bigT3) := by
  refine ⟨⟨by decide, by decide, by decide⟩, ?_, bigT3_norm, bigT3_recon.2⟩
  refine ⟨String.mk (List.replicate 4000 'a' ++ ['。']), ?_, ?_⟩
  · rw [bigT2_chunks]
    exact List.mem_cons_self _ _
  · rw [String_length_mk, List.length_append, List.length_replicate]
    norm_num

end PitchAI
